import Mathlib

/-!
Verification of the simulation core of the Fallen-village tactical game.

The TypeScript sources are shallowly embedded below.  Conventions used
throughout the embedding:

* JavaScript numbers are modelled exactly.  Coordinates and grid sizes are
  integers (Int); fractional quantities (AP, costs, opacity, PRNG outputs)
  are rationals (Rat).  Every numeric value this program manipulates is a
  dyadic rational, on which IEEE double arithmetic is exact, so Rat is a
  faithful model.
* Because the kernel cannot reduce the library operations Rat.add, Rat.sub
  and Rat.mul, the embedding uses the equivalent executable operations
  qadd, qsub, qmul defined via mkRat; the bridge lemmas qadd_eq, qsub_eq
  and qmul_eq prove them equal to the library operations.
* A JavaScript Record keyed by unit id is modelled as a list of units in
  insertion order; lookup is the first match, update maps over the list.
* A JavaScript Set of coordinate-key strings is modelled as a list of
  integer tuples (string formatting of distinct tuples is injective).
* A thrown TypeError (out-of-range indexing on undefined) is modelled by
  an Option result being none where the claims depend on it.
* Ambient nondeterminism (Math.random, crypto.randomUUID) is modelled by
  explicit stream parameters indexed by a call counter.
-/

namespace Fallen

/-! ## Executable rational arithmetic -/

/-- Executable addition on rationals, kernel-reducible (see bridge lemma). -/
def qadd (a b : ℚ) : ℚ := mkRat (a.num * b.den + b.num * a.den) (a.den * b.den)

/-- Executable subtraction on rationals. -/
def qsub (a b : ℚ) : ℚ := mkRat (a.num * b.den - b.num * a.den) (a.den * b.den)

/-- Executable multiplication on rationals. -/
def qmul (a b : ℚ) : ℚ := mkRat (a.num * b.num) (a.den * b.den)

/-! ## Data model (src/core/types.ts, later revision used by the core files) -/

/-- Coordinate triple (x, y, floor). -/
structure Coordinate where
  x : Int
  y : Int
  floor : Int
deriving DecidableEq, Repr

/-- Tile types of the later revision (STAIRS split into UP and DOWN). -/
inductive TileType where
  | EMPTY | CONCRETE | MUD | STAIRS_UP | STAIRS_DOWN | WALL
deriving DecidableEq, Repr

structure TileMetadata where
  noiseCoefficient : ℚ
  spawnWeight : ℚ
  isInteractable : Bool
  opacity : ℚ
  walkable : Bool
deriving DecidableEq, Repr

structure Tile where
  coordinate : Coordinate
  type : TileType
  metadata : TileMetadata
deriving DecidableEq, Repr

/-- One floor, indexed [x][y] as in the source. -/
abbrev Floor := List (List Tile)

/-- All floors, indexed [z][x][y]. -/
abbrev FloorData := List Floor

inductive UnitKind where
  | PLAYER | ENEMY
deriving DecidableEq, Repr

inductive Facing where
  | UP | DOWN | LEFT | RIGHT
deriving DecidableEq, Repr

inductive AIState where
  | SLEEP | WANDER | CHASE | SEARCH
deriving DecidableEq, Repr

structure AIMemory where
  state : AIState
  lastKnownTargetPos : Option Coordinate
deriving DecidableEq, Repr

structure UnitStatus where
  hp : ℚ
  maxHp : ℚ
  ap : ℚ
  maxAp : ℚ
  apRecovery : ℚ
  sightRange : Int
  isInjured : Bool
  noiseLevel : Option ℚ
deriving DecidableEq, Repr

structure Unit where
  id : String
  type : UnitKind
  faction : UnitKind
  name : String
  position : Coordinate
  status : UnitStatus
  facing : Facing
  memory : Option AIMemory
deriving DecidableEq, Repr

inductive ActionType where
  | MOVE | ATTACK | CLIMB | WAIT
deriving DecidableEq, Repr

inductive ActionStatus where
  | QUEUED | EXECUTING | COMPLETED
deriving DecidableEq, Repr

structure Action where
  id : String
  type : ActionType
  unitId : String
  target : Option Coordinate
  targetUnitId : Option String
  cost : ℚ
  status : ActionStatus
deriving DecidableEq, Repr

inductive GamePhase where
  | DECISION | EXECUTION
deriving DecidableEq, Repr

structure GameState where
  floor : FloorData
  units : List Unit
  phase : GamePhase
  timer : ℚ
  actionQueue : List Action
  seed : Nat
deriving DecidableEq, Repr

/-! ## Grid access helpers -/

/-- Model of indexing floorData[z]; JavaScript yields undefined out of range. -/
def floorGet (fd : FloorData) (z : Int) : Option Floor :=
  if 0 ≤ z then fd.get? z.toNat else none

/-- Model of indexing floorMap[x][y]; undefined out of range. -/
def tileAt (fm : Floor) (x y : Int) : Option Tile :=
  if 0 ≤ x ∧ 0 ≤ y then (fm.get? x.toNat).bind (fun col => col.get? y.toNat) else none

/-- Walkability of floorMap[x][y].metadata.walkable.  An access to a missing
tile of a ragged row (which would throw in JavaScript) is modelled as not
walkable, which makes the search skip the tile. -/
def walkableAt (fm : Floor) (x y : Int) : Bool :=
  ((tileAt fm x y).map (fun t => t.metadata.walkable)).getD false

/-- Model of floorMap.length as an integer. -/
def widthOf (fm : Floor) : Int := (fm.length : Int)

/-- Model of floorMap[0].length; 0 for an empty grid (the call sites that
would throw on an empty grid short-circuit before evaluating it). -/
def heightOf (fm : Floor) : Int := ((fm.headD []).length : Int)

/-! ## World mutators (src/core/store.ts) -/

/-- Model of the store update pattern newUnits = mapping over the record. -/
def updateUnits (units : List Unit) (uid : String) (f : Unit → Unit) : List Unit :=
  units.map (fun u => if u.id = uid then f u else u)

/-- Lookup state.units[unitId]. -/
def findUnit (units : List Unit) (uid : String) : Option Unit :=
  units.find? (fun u => u.id = uid)

/-- setPhase from src/core/store.ts lines 60-77: stores the phase and, on
entering DECISION, recovers a fixed 5 AP for every unit, capped at maxAp.
The source hardcodes the constant 5 and never reads status.apRecovery. -/
def setPhase (s : GameState) (phase : GamePhase) : GameState :=
  if phase = GamePhase.DECISION then
    { s with phase := phase,
             units := s.units.map (fun u =>
               { u with status :=
                 { u.status with ap := min u.status.maxAp (qadd u.status.ap 5) } }) }
  else { s with phase := phase }

/-- updateTimer from src/core/store.ts: DECISION only, clamp at 0. -/
def updateTimer (s : GameState) (deltaTime : ℚ) : GameState :=
  if s.phase ≠ GamePhase.DECISION then s
  else { s with timer := max 0 (qsub s.timer deltaTime) }

/-- updateUnitPosition from src/core/store.ts: no-op on a missing unit. -/
def updateUnitPosition (s : GameState) (uid : String) (position : Coordinate) : GameState :=
  match findUnit s.units uid with
  | none => s
  | some _ => { s with units := updateUnits s.units uid (fun u => { u with position := position }) }

/-- queueAction from src/core/store.ts lines 113-137: with a positive cost,
the acting unit (when present) is debited; an insufficient balance cancels
the whole enqueue; then the action is appended. -/
def queueAction (s : GameState) (action : Action) : GameState :=
  if 0 < action.cost then
    match findUnit s.units action.unitId with
    | some unit =>
      if unit.status.ap < action.cost then s
      else
        { s with
          actionQueue := s.actionQueue ++ [action],
          units := updateUnits s.units action.unitId (fun u =>
            { u with status := { u.status with ap := qsub u.status.ap action.cost } }) }
    | none => { s with actionQueue := s.actionQueue ++ [action] }
  else { s with actionQueue := s.actionQueue ++ [action] }

/-- cancelAction from src/core/store.ts lines 139-164: pop the last queued
action and refund its cost to the acting unit; no-op on an empty queue. -/
def cancelAction (s : GameState) : GameState :=
  match s.actionQueue.getLast? with
  | none => s
  | some lastAction =>
    let newUnits :=
      if 0 < lastAction.cost then
        match findUnit s.units lastAction.unitId with
        | some _ => updateUnits s.units lastAction.unitId (fun u =>
            { u with status := { u.status with ap := qadd u.status.ap lastAction.cost } })
        | none => s.units
      else s.units
    { s with actionQueue := s.actionQueue.dropLast, units := newUnits }

/-- clearActionQueue from src/core/store.ts. -/
def clearActionQueue (s : GameState) : GameState :=
  { s with actionQueue := [] }

/-- Modelled from the spec: applyDamage is called by the action processor but
the store revision under src lacks it; spec section 4.7 defines it as
hp decreased by amount, removal of the unit at hp below or equal to 0, and
otherwise isInjured set to hp below half maxHp.  The DamageEvent appended for
the UI (ambient id and wall-clock timestamp) is not modelled. -/
def applyDamage (s : GameState) (uid : String) (amount : ℚ) : GameState :=
  match findUnit s.units uid with
  | none => s
  | some u =>
    let newHp := qsub u.status.hp amount
    if newHp ≤ 0 then
      { s with units := s.units.filter (fun v => ¬ v.id = uid) }
    else
      { s with units := updateUnits s.units uid (fun v =>
          { v with status :=
            { v.status with
              hp := newHp
              isInjured := decide (newHp < qmul v.status.maxHp (mkRat 1 2)) } }) }

/-! ## Pathfinding (src/core/pathfinding.ts and its revisions)

The A* loop is embedded once, parameterised over the dynamic-obstacle rule
dyn: given a neighbour tile and the base direction cost, dyn returns none
when the tile is blocked and the cost of the step otherwise.  The three
revisions of findPath instantiate dyn differently and are wrapped below. -/

/-- One entry of the DIRECTIONS table: delta and step cost. -/
structure Dir where
  dx : Int
  dy : Int
  cost : ℚ
deriving DecidableEq, Repr

/-- DIRECTIONS from src/core/pathfinding.ts lines 14-23. -/
def DIRECTIONS : List Dir :=
  [⟨1, 0, 1⟩, ⟨1, 1, mkRat 3 2⟩, ⟨0, 1, 1⟩, ⟨-1, 1, mkRat 3 2⟩,
   ⟨-1, 0, 1⟩, ⟨-1, -1, mkRat 3 2⟩, ⟨0, -1, 1⟩, ⟨1, -1, mkRat 3 2⟩]

/-- getHeuristic from src/core/pathfinding.ts lines 25-30:
octile distance (dx + dy) + (1.5 - 2) * min dx dy over absolute deltas. -/
def getHeuristic (a b : Coordinate) : ℚ :=
  let dx : Int := (a.x - b.x).natAbs
  let dy : Int := (a.y - b.y).natAbs
  qadd (mkRat (dx + dy) 1) (qmul (qsub (mkRat 3 2) 2) (mkRat (min dx dy) 1))

/-- A search node; the source Node object with its parent pointer.  The null
parent of the initial node is the root constructor. -/
inductive PNode where
  | root (x y : Int) (f g hc : ℚ)
  | child (x y : Int) (f g hc : ℚ) (par : PNode)
deriving DecidableEq, Repr

def PNode.x : PNode → Int
  | .root x _ _ _ _ => x
  | .child x _ _ _ _ _ => x

def PNode.y : PNode → Int
  | .root _ y _ _ _ => y
  | .child _ y _ _ _ _ => y

def PNode.f : PNode → ℚ
  | .root _ _ f _ _ => f
  | .child _ _ f _ _ _ => f

def PNode.g : PNode → ℚ
  | .root _ _ _ g _ => g
  | .child _ _ _ g _ _ => g

def PNode.hc : PNode → ℚ
  | .root _ _ _ _ hc => hc
  | .child _ _ _ _ hc _ => hc

/-- Search context: the floor grid, the floor index z, the goal cell and the
dynamic-obstacle rule. -/
structure SearchEnv where
  floorMap : Floor
  z : Int
  ex : Int
  ey : Int
  dyn : Int → Int → ℚ → Option ℚ

/-- Bounds test mirroring nx less than 0, nx at least width, and the same
for ny against floorMap[0].length. -/
def inBounds (env : SearchEnv) (x y : Int) : Bool :=
  decide (0 ≤ x) && decide (x < widthOf env.floorMap) &&
  decide (0 ≤ y) && decide (y < heightOf env.floorMap)

/-- In-place mutation of the first open node with the given cell. -/
def updateFirst (l : List PNode) (nx ny : Int) (nn : PNode) : List PNode :=
  match l with
  | [] => []
  | m :: rest =>
    if m.x = nx ∧ m.y = ny then nn :: rest else m :: updateFirst rest nx ny nn

/-- Processing of a single DIRECTIONS entry for the current node: the bounds,
walkability, closed-set and dynamic-obstacle checks, then the update-or-push
of the neighbour, from the loop body of findPath. -/
def tryDir (env : SearchEnv) (cur : PNode) (closed : List (Int × Int))
    (openL : List PNode) (d : Dir) : List PNode :=
  let nx := cur.x + d.dx
  let ny := cur.y + d.dy
  if ¬ inBounds env nx ny then openL
  else if ¬ walkableAt env.floorMap nx ny then openL
  else if (nx, ny) ∈ closed then openL
  else
    match env.dyn nx ny d.cost with
    | none => openL
    | some moveCost =>
      let gScore := qadd cur.g moveCost
      let hScore := getHeuristic ⟨nx, ny, env.z⟩ ⟨env.ex, env.ey, env.z⟩
      match openL.find? (fun n => decide (n.x = nx) && decide (n.y = ny)) with
      | some existing =>
        if gScore < existing.g then
          updateFirst openL nx ny (.child nx ny (qadd gScore existing.hc) gScore existing.hc cur)
        else openL
      | none => openL ++ [.child nx ny (qadd gScore hScore) gScore hScore cur]

/-- Stable insertion into a list sorted by f; the earlier element stays in
front of later elements with the same f, matching the stable sort of
openList.sort((a, b) => a.f - b.f). -/
def insertByF (n : PNode) : List PNode → List PNode
  | [] => [n]
  | m :: rest => if m.f < n.f then m :: insertByF n rest else n :: m :: rest

/-- Stable sort of the open list by f. -/
def sortOpen : List PNode → List PNode
  | [] => []
  | n :: rest => insertByF n (sortOpen rest)

/-- The A* while loop: sort, shift, goal test, closed test, expansion.  The
fuel argument bounds the number of iterations; the wrappers pass enough fuel
for the loop to run to natural completion (each iteration consumes one open
node, of which at most 1 + 8 * width * height ever exist, because a node is
pushed only while expanding a newly closed cell). -/
def aStarLoop (env : SearchEnv) : Nat → List PNode → List (Int × Int) → Option PNode
  | 0, _, _ => none
  | Nat.succ fuel, openL, closed =>
    match sortOpen openL with
    | [] => none
    | cur :: rest =>
      if cur.x = env.ex ∧ cur.y = env.ey then some cur
      else if (cur.x, cur.y) ∈ closed then aStarLoop env fuel rest closed
      else
        aStarLoop env fuel
          (List.foldl (tryDir env cur ((cur.x, cur.y) :: closed)) rest DIRECTIONS)
          ((cur.x, cur.y) :: closed)

/-- Fuel that is always sufficient, see aStarLoop. -/
def searchFuel (fm : Floor) : Nat := 9 * (fm.length * (fm.headD []).length + 1) + 9

/-- Path reconstruction by walking parents backward (unshift loop). -/
def buildPath (z : Int) : PNode → List Coordinate → List Coordinate
  | .root x y _ _ _, acc => ⟨x, y, z⟩ :: acc
  | .child x y _ _ _ p, acc => buildPath z p (⟨x, y, z⟩ :: acc)

/-- Shared front part of every findPath revision: resolve the floor from
start.floor, bounds-check and static-walkability-check the end cell, then
run the loop from the start node with f = g = h = 0. -/
def runSearch (start goal : Coordinate) (floorData : FloorData)
    (mkDyn : Floor → Int → Int → ℚ → Option ℚ) : Option PNode :=
  match floorGet floorData start.floor with
  | none => none
  | some floorMap =>
    if goal.x < 0 ∨ widthOf floorMap ≤ goal.x ∨ goal.y < 0 ∨ heightOf floorMap ≤ goal.y then
      none
    else if ¬ walkableAt floorMap goal.x goal.y then none
    else
      aStarLoop ⟨floorMap, start.floor, goal.x, goal.y, mkDyn floorMap⟩
        (searchFuel floorMap) [.root start.x start.y 0 0 0] []

/-- findPath from src/core/pathfinding.ts lines 32-127: static obstacles
only; every admissible step costs the direction cost. -/
def findPath (start goal : Coordinate) (floorData : FloorData) : Option (List Coordinate) :=
  (runSearch start goal floorData (fun _ _ _ c => some c)).map
    (fun n => buildPath start.floor n [])

/-- Occupancy test of the part_000 revision: some obstacle with the given
cell coordinates on floor z. -/
def obstacleAt (dynamicObstacles : List Coordinate) (z x y : Int) : Bool :=
  dynamicObstacles.any
    (fun b => decide (b.x = x) && decide (b.y = y) && decide (b.floor = z))

/-- findPath from src/unnamed/part_000 lines 37-158: dynamic obstacles as
bare coordinates; a path may not end on an obstacle (rejected upfront) and
entering an occupied tile costs a flat 2.0. -/
def findPathObstacles (start goal : Coordinate) (floorData : FloorData)
    (dynamicObstacles : List Coordinate) : Option (List Coordinate) :=
  match floorGet floorData start.floor with
  | none => none
  | some floorMap =>
    if goal.x < 0 ∨ widthOf floorMap ≤ goal.x ∨ goal.y < 0 ∨ heightOf floorMap ≤ goal.y then
      none
    else if ¬ walkableAt floorMap goal.x goal.y then none
    else if obstacleAt dynamicObstacles start.floor goal.x goal.y then none
    else
      (aStarLoop
          ⟨floorMap, start.floor, goal.x, goal.y,
           fun nx ny c => if obstacleAt dynamicObstacles start.floor nx ny then some 2 else some c⟩
          (searchFuel floorMap) [.root start.x start.y 0 0 0] []).map
        (fun n => buildPath start.floor n [])

/-- First unit other than the mover standing on the given cell of floor z. -/
def occupierAt (units : List Unit) (moverId : String) (z x y : Int) : Option Unit :=
  units.find? (fun u =>
    decide (¬ u.id = moverId) && decide (u.position.x = x) &&
    decide (u.position.y = y) && decide (u.position.floor = z))

/-- Whether the unit with the mover id is a PLAYER. -/
def moverIsPlayer (units : List Unit) (moverId : String) : Bool :=
  match units.find? (fun u => u.id = moverId) with
  | some u => u.type = UnitKind.PLAYER
  | none => false

/-- Modelled from the spec: the occupancy rule of the units-aware search;
the current findPath revision taking the unit list and the mover id is
absent from src (only its callers in src/core/actionProcessor.ts and the
part_003 renderer revision remain), so its occupancy rules are taken from
spec section 4.4: an occupied goal neighbour is skipped; a PLAYER mover
passes through an ENEMY occupier at step cost 3.0; every other occupied
neighbour is skipped. -/
def unitsDyn (units : List Unit) (moverId : String) (z gx gy : Int) :
    Int → Int → ℚ → Option ℚ :=
  fun nx ny c =>
    match occupierAt units moverId z nx ny with
    | none => some c
    | some occ =>
      if nx = gx ∧ ny = gy then none
      else if moverIsPlayer units moverId ∧ occ.type = UnitKind.ENEMY then some 3
      else none

def findPathUnitsSearch (start goal : Coordinate) (floorData : FloorData)
    (units : List Unit) (moverId : String) : Option PNode :=
  runSearch start goal floorData
    (fun _ => unitsDyn units moverId start.floor goal.x goal.y)

/-- Modelled from the spec: path returned by the units-aware findPath, see
findPathUnitsSearch. -/
def findPathUnits (start goal : Coordinate) (floorData : FloorData)
    (units : List Unit) (moverId : String) : Option (List Coordinate) :=
  (findPathUnitsSearch start goal floorData units moverId).map
    (fun n => buildPath start.floor n [])

/-! ## Action processor (src/core/actionProcessor.ts) -/

/-- Manhattan distance; the dist computation of executeAttackAction and the
getDist helper of src/core/ai.ts. -/
def getDist (a b : Coordinate) : Int :=
  ((a.x - b.x).natAbs : Int) + ((a.y - b.y).natAbs : Int)

/-- The per-waypoint loop of executeMoveAction: dynamic collision re-check
against the live units, stop at an occupied destination, pass through an
ENEMY blocker when the mover is a PLAYER, stop on any other blocker, and
otherwise commit the step.  The captured unit id and kind stay fixed. -/
def moveSteps (uid : String) (ukind : UnitKind) : GameState → List Coordinate → GameState
  | s, [] => s
  | s, nextPos :: rest =>
    match s.units.find? (fun u =>
        decide (¬ u.id = uid) && decide (u.position = nextPos)) with
    | some blocker =>
      if rest = [] then s
      else if ukind = UnitKind.PLAYER ∧ blocker.type = UnitKind.ENEMY then
        moveSteps uid ukind (updateUnitPosition s uid nextPos) rest
      else s
    | none => moveSteps uid ukind (updateUnitPosition s uid nextPos) rest

/-- executeMoveAction from src/core/actionProcessor.ts lines 49-98: recompute
the path with the units-aware findPath, then commit it step by step. -/
def executeMoveAction (s : GameState) (action : Action) : GameState :=
  match findUnit s.units action.unitId, action.target with
  | some unit, some target =>
    match findPathUnits unit.position target s.floor s.units unit.id with
    | none => s
    | some path => moveSteps unit.id unit.type s path.tail
  | _, _ => s

/-- executeAttackAction from src/core/actionProcessor.ts lines 100-137:
require attacker and target present, same floor and Manhattan distance at
most 1, then apply 1 damage. -/
def executeAttackAction (s : GameState) (action : Action) : GameState :=
  match action.targetUnitId with
  | none => s
  | some tid =>
    match findUnit s.units action.unitId, findUnit s.units tid with
    | some attacker, some target =>
      if attacker.position.floor ≠ target.position.floor then s
      else if 1 < getDist attacker.position target.position then s
      else applyDamage s tid 1
    | _, _ => s

/-- executeClimbAction from src/core/actionProcessor.ts lines 139-166.  The
result is none when the indexing store.floor[floor][x][y] or the tile.type
access would throw in JavaScript. -/
def executeClimbAction (s : GameState) (action : Action) : Option GameState :=
  match findUnit s.units action.unitId with
  | none => some s
  | some unit =>
    match floorGet s.floor unit.position.floor with
    | none => none
    | some fm =>
      match tileAt fm unit.position.x unit.position.y with
      | none => none
      | some tile =>
        if tile.type = TileType.STAIRS_UP ∨ tile.type = TileType.STAIRS_DOWN then
          let targetFloor :=
            if tile.type = TileType.STAIRS_UP then unit.position.floor + 1
            else unit.position.floor - 1
          match floorGet s.floor targetFloor with
          | some _ =>
            some (updateUnitPosition s unit.id
              ⟨unit.position.x, unit.position.y, targetFloor⟩)
          | none => some s
        else some s

/-- endExecution from src/core/actionProcessor.ts lines 168-173: clear the
queue, return to DECISION (which regenerates AP), reset the timer to 5.0. -/
def endExecution (s : GameState) : GameState :=
  { setPhase (clearActionQueue s) GamePhase.DECISION with timer := 5 }

/-- One dispatch step of the executeTurn loop. -/
def executeAction (s : GameState) (action : Action) : Option GameState :=
  if action.type = ActionType.MOVE then some (executeMoveAction s action)
  else if action.type = ActionType.ATTACK then some (executeAttackAction s action)
  else if action.type = ActionType.CLIMB then executeClimbAction s action
  else some s

/-- The for loop of executeTurn over the copied queue; a thrown exception
aborts the rest of the turn (Option bind). -/
def executeAll : GameState → List Action → Option GameState
  | s, [] => some s
  | s, a :: rest => (executeAction s a).bind (fun s2 => executeAll s2 rest)

/-- executeTurn from src/core/actionProcessor.ts lines 19-47: empty queue
goes straight to endExecution; otherwise the queue snapshot is processed,
the queue is cleared, and endExecution runs. -/
def executeTurn (s : GameState) : Option GameState :=
  if s.actionQueue = [] then some (endExecution s)
  else
    (executeAll s s.actionQueue).map (fun s2 => endExecution { s2 with actionQueue := [] })

/-! ## Field of view (calculateSimpleFOV in src/core/store.ts lines 294-338)

The ray directions are cos and sin of every second degree in the source;
those are irrational, so the embedding abstracts the direction table into a
parameter (every IEEE double is rational) and the theorems quantify over
it.  The visible set is modelled as a list of integer keys in insertion
order. -/

/-- JavaScript Set.add: append if absent. -/
def addKey (k : Int × Int × Int) (l : List (Int × Int × Int)) : List (Int × Int × Int) :=
  if k ∈ l then l else l ++ [k]

/-- Ray stop test floor[tx][ty].metadata.opacity at least 1.  A ragged-row
access that would throw in JavaScript is modelled as a stop. -/
def opacityStop (fm : Floor) (x y : Int) : Bool :=
  ((tileAt fm x y).map (fun t => decide (1 ≤ t.metadata.opacity))).getD true

/-- The inner ray walk: advance by half the direction vector, floor to a
tile, stop at the border, reveal the tile, stop at an opaque tile. -/
def rayWalk (fm : Floor) (z : Int) (dx dy : ℚ) :
    Nat → ℚ → ℚ → List (Int × Int × Int) → List (Int × Int × Int)
  | 0, _, _, vt => vt
  | Nat.succ n, ox, oy, vt =>
    let ox2 := qadd ox (qmul dx (mkRat 1 2))
    let oy2 := qadd oy (qmul dy (mkRat 1 2))
    let tx := ox2.floor
    let ty := oy2.floor
    if tx < 0 ∨ widthOf fm ≤ tx ∨ ty < 0 ∨ heightOf fm ≤ ty then vt
    else
      let vt2 := addKey (tx, ty, z) vt
      if opacityStop fm tx ty then vt2
      else rayWalk fm z dx dy n ox2 oy2 vt2

/-- calculateSimpleFOV: missing floor returns the empty set; an empty grid
makes floor[0].length throw (none); otherwise the origin key is added and
every ray of the direction table is walked from origin plus (0.5, 0.5) in
half-unit steps while the step offset stays below the range. -/
def calculateSimpleFOV (dirs : List (ℚ × ℚ)) (origin : Coordinate) (range : ℚ)
    (floorData : FloorData) : Option (List (Int × Int × Int)) :=
  match floorGet floorData origin.floor with
  | none => some []
  | some fm =>
    match fm with
    | [] => none
    | _ :: _ =>
      let steps := (qmul 2 range).ceil.toNat
      let base := addKey (origin.x, origin.y, origin.floor) []
      some (dirs.foldl
        (fun vt d =>
          rayWalk fm origin.floor d.1 d.2 steps
            (qadd (mkRat origin.x 1) (mkRat 1 2)) (qadd (mkRat origin.y 1) (mkRat 1 2)) vt)
        base)

/-! ## Map generator (src/core/mapGenerator.ts lines 77-243, the two-floor
revision returning floors and units) -/

/-- The linear congruential update of PRNG.next.  For seeds below 2 to the
33rd the double arithmetic of the source is exact and agrees with this. -/
def prngNext (seed : Nat) : Nat := (seed * 1664525 + 1013904223) % 4294967296

/-- Output of PRNG.next: the new state divided by 2 to the 32nd. -/
def prngOut (seed : Nat) : ℚ := mkRat (seed : Int) 4294967296

/-- PRNG.range(min, max): floor(next times (max - min + 1)) + min. -/
def prngRange (seed : Nat) (lo hi : Int) : Nat × Int :=
  let s2 := prngNext seed
  (s2, (qmul (prngOut s2) (mkRat (hi - lo + 1) 1)).floor + lo)

/-- One generated tile; the wall test next() above 0.8 is embedded as the
exact rational comparison (no 32-bit state falls between 4/5 and the double
nearest 0.8, so the two readings agree on every state). -/
def genTileAt (z x y : Int) (seed : Nat) : Nat × Tile :=
  let s2 := prngNext seed
  let isWall := decide (mkRat 4 5 < prngOut s2)
  let ttype := if isWall then TileType.WALL else TileType.CONCRETE
  (s2, ⟨⟨x, y, z⟩, ttype,
    ⟨if ttype = TileType.CONCRETE then 1 else 0, 1, false,
     if isWall then 1 else 0, !isWall⟩⟩)

def genRow (z x : Int) (st : Nat × List Tile) : Nat × List Tile :=
  (List.range 20).foldl
    (fun acc y =>
      let r := genTileAt z x (y : Int) acc.1
      (r.1, acc.2 ++ [r.2]))
    st

def genFloor (z : Int) (st : Nat × Floor) : Nat × Floor :=
  (List.range 20).foldl
    (fun acc x =>
      let r := genRow z (x : Int) (acc.1, [])
      (r.1, acc.2 ++ [r.2]))
    st

def genFloors (seed : Nat) : Nat × FloorData :=
  (List.range 2).foldl
    (fun acc z =>
      let r := genFloor (z : Int) (acc.1, [])
      (r.1, acc.2 ++ [r.2]))
    (seed, [])

def modifyAt {α : Type} (l : List α) (i : Nat) (f : α → α) : List α :=
  match l, i with
  | [], _ => []
  | a :: rest, 0 => f a :: rest
  | a :: rest, Nat.succ n => a :: modifyAt rest n f

/-- In-place mutation of floors[z][x][y]; out of range is a no-op (matching
the guarded call sites). -/
def modifyTile (fd : FloorData) (z x y : Int) (f : Tile → Tile) : FloorData :=
  if 0 ≤ z ∧ 0 ≤ x ∧ 0 ≤ y then
    modifyAt fd z.toNat (fun fm => modifyAt fm x.toNat (fun col => modifyAt col y.toNat f))
  else fd

/-- The plaza clearing applied to one tile: type CONCRETE, walkable,
transparent; the noise coefficient is left untouched, as in the source. -/
def plazaTile (t : Tile) : Tile :=
  { t with type := TileType.CONCRETE,
           metadata := { t.metadata with walkable := true, opacity := 0 } }

/-- Clear the 5 by 5 start area on floor 0 around (10, 10). -/
def carvePlaza (fd : FloorData) : FloorData :=
  (List.range 5).foldl
    (fun acc i =>
      (List.range 5).foldl
        (fun acc2 j => modifyTile acc2 0 (8 + (i : Int)) (8 + (j : Int)) plazaTile)
        acc)
    fd

/-- The stairs rejection-sampling while loop, fuelled; the fuel is never
reached on the states that occur (the loop exits as soon as one coordinate
is at Chebyshev distance at least 5 from the centre). -/
def stairLoop (seed : Nat) (sx sy : Int) : Nat → Nat × Int × Int
  | 0 => (seed, sx, sy)
  | Nat.succ n =>
    if (sx - 10).natAbs < 5 ∧ (sy - 10).natAbs < 5 then
      let r1 := prngRange seed 1 18
      let r2 := prngRange r1.1 1 18
      stairLoop r2.1 r1.2 r2.2 n
    else (seed, sx, sy)

def stairsTile (t : TileType) (tile : Tile) : Tile :=
  { tile with type := t, metadata := { tile.metadata with walkable := true, opacity := 0 } }

/-- The player unit spawned by generateMap. -/
def spawnPlayer : Unit :=
  ⟨"player-1", UnitKind.PLAYER, UnitKind.PLAYER, "Survivor", ⟨10, 10, 0⟩,
   ⟨100, 100, 10, 10, 5, 10, false, some 3⟩, Facing.DOWN, none⟩

/-- An enemy unit spawned by generateMap. -/
def spawnEnemy (idx : Nat) (x y : Int) : Unit :=
  ⟨"biter-" ++ toString idx, UnitKind.ENEMY, UnitKind.ENEMY, "Biter", ⟨x, y, 0⟩,
   ⟨3, 3, 8, 8, 4, 7, false, none⟩, Facing.DOWN, none⟩

/-- The enemy spawn loop: up to 100 attempts, each drawing x and y, spawning
on a walkable unoccupied tile at Manhattan distance above 6 from centre. -/
def enemyLoop (fd : FloorData) : Nat → List Unit → Nat → Int → Nat → List Unit
  | _, units, _, _, 0 => units
  | seed, units, spawned, enemyCount, Nat.succ n =>
    if (spawned : Int) < enemyCount then
      let s2 := prngNext seed
      let x := (qmul (prngOut s2) (mkRat 20 1)).floor
      let s3 := prngNext s2
      let y := (qmul (prngOut s3) (mkRat 20 1)).floor
      let dist := ((x - 10).natAbs : Int) + ((y - 10).natAbs : Int)
      let tileOk :=
        match floorGet fd 0 with
        | some fm => walkableAt fm x y
        | none => false
      let isOccupied := units.any (fun u =>
        decide (u.position.x = x) && decide (u.position.y = y) && decide (u.position.floor = 0))
      if tileOk && decide (6 < dist) && !isOccupied then
        enemyLoop fd s3 (units ++ [spawnEnemy spawned x y]) (spawned + 1) enemyCount n
      else enemyLoop fd s3 units spawned enemyCount n
    else units

/-- generateMap from src/core/mapGenerator.ts lines 102-243: tiles, plaza,
stairs, player, then 3 to 5 enemies. -/
def generateMap (seed : Nat) : FloorData × List Unit :=
  let g := genFloors seed
  let floors1 := carvePlaza g.2
  let st := stairLoop g.1 10 10 4294967296
  let floors2 := modifyTile floors1 0 st.2.1 st.2.2 (stairsTile TileType.STAIRS_UP)
  let floors3 := modifyTile floors2 1 st.2.1 st.2.2 (stairsTile TileType.STAIRS_DOWN)
  let units0 := [spawnPlayer]
  let s4 := prngNext st.1
  let enemyCount := 3 + (qmul (prngOut s4) (mkRat 3 1)).floor
  let units1 := enemyLoop floors3 s4 units0 0 enemyCount 100
  (floors3, units1)

/-! ## AI planner (src/core/ai.ts) -/

/-- The facing direction vector of the canSee cone check. -/
def facingDir (f : Facing) : Int × Int :=
  match f with
  | Facing.UP => (0, -1)
  | Facing.DOWN => (0, 1)
  | Facing.LEFT => (-1, 0)
  | Facing.RIGHT => (1, 0)

/-- canSee from src/core/ai.ts lines 20-46: distance gate on sightRange,
then the 120-degree cone test dot at least 0.3 along the facing direction
(distance zero always passes).  The source computes the dot product with a
square root and floating division; for integer deltas and an axis-aligned
facing that real-valued test is exactly the integer test n at least 0 and
9 len-squared at most 100 n-squared (equality is impossible because 91 is
not a perfect square, so the boundary never arises and the embedding agrees
with the source on every input).  The floor argument is unused, as in the
source. -/
def canSee (observer : Unit) (target : Coordinate) (fl : Floor) : Bool :=
  let dist := getDist observer.position target
  if observer.status.sightRange < dist then false
  else
    let dx := target.x - observer.position.x
    let dy := target.y - observer.position.y
    let dir := facingDir observer.facing
    if dx = 0 ∧ dy = 0 then true
    else
      let n := dx * dir.1 + dy * dir.2
      decide (0 ≤ n ∧ 9 * (dx * dx + dy * dy) ≤ 100 * (n * n))

/-- The WANDER destination loop: up to 3 tries, two Math.random draws per
try, first in-bounds walkable neighbour wins; the second component is the
advanced random-stream counter. -/
def tryWander (cf : Floor) (pos : Coordinate) (rnd : Nat → ℚ) :
    Nat → Nat → Option Coordinate × Nat
  | k, 0 => (none, k)
  | k, Nat.succ t =>
    let dx := (qmul (rnd k) 3).floor - 1
    let dy := (qmul (rnd (k + 1)) 3).floor - 1
    let k2 := k + 2
    if dx = 0 ∧ dy = 0 then tryWander cf pos rnd k2 t
    else
      let tx := pos.x + dx
      let ty := pos.y + dy
      if 0 ≤ tx ∧ tx < widthOf cf ∧ 0 ≤ ty ∧ ty < heightOf cf ∧ walkableAt cf tx ty then
        (some ⟨tx, ty, pos.floor⟩, k2)
      else tryWander cf pos rnd k2 t

def intRange (r : Nat) : List Int :=
  (List.range (2 * r + 1)).map (fun i => (i : Int) - (r : Int))

/-- The reservation spiral of src/core/ai.ts lines 156-180: radius 0 to 2,
rings r up to the radius, first free in-bounds walkable unreserved cell. -/
def spiralFind (cf : Floor) (reserved : List (Int × Int)) (dest : Coordinate) :
    Option Coordinate :=
  (List.range 3).findSome? (fun radius =>
    (List.range (radius + 1)).findSome? (fun r =>
      (intRange r).findSome? (fun dx =>
        (intRange r).findSome? (fun dy =>
          if (dx.natAbs : Int) ≠ (r : Int) ∧ (dy.natAbs : Int) ≠ (r : Int) then none
          else
            let tx := dest.x + dx
            let ty := dest.y + dy
            if tx < 0 ∨ widthOf cf ≤ tx ∨ ty < 0 ∨ heightOf cf ≤ ty then none
            else if ¬ walkableAt cf tx ty then none
            else if (tx, ty) ∈ reserved then none
            else some ⟨tx, ty, dest.floor⟩))))

structure SimResult where
  costAccumulated : ℚ
  actualDest : Coordinate
  reachIndex : Nat
deriving DecidableEq, Repr

/-- The step-budgeting simulation of src/core/ai.ts lines 191-220: walk the
path, stop at the target cell, charge 1.5 diagonal and 1.0 straight, stop
when the next step is unaffordable. -/
def simSteps (ap : ℚ) (tpos : Coordinate) :
    Coordinate → List Coordinate → Nat → ℚ → Coordinate → Nat → SimResult
  | _, [], _, acc, dest, idx => ⟨acc, dest, idx⟩
  | prev, curr :: rest, i, acc, dest, idx =>
    if curr.x = tpos.x ∧ curr.y = tpos.y then ⟨acc, dest, idx⟩
    else
      let stepCost : ℚ := if prev.x ≠ curr.x ∧ prev.y ≠ curr.y then mkRat 3 2 else 1
      if qadd acc stepCost ≤ ap then simSteps ap tpos curr rest (i + 1) (qadd acc stepCost) curr i
      else ⟨acc, dest, idx⟩

/-- The guarded entry to the step simulation: a missing or empty path is
simulated as staying in place at no cost. -/
def simulateByPath (ap : ℚ) (tpos dflt : Coordinate) : Option (List Coordinate) → SimResult
  | some (p0 :: rest) => simSteps ap tpos p0 rest 1 0 dflt 0
  | _ => ⟨0, dflt, 0⟩

/-- Total AP cost of a list of intents. -/
def costSum (l : List Action) : ℚ := l.foldr (fun a s => qadd a.cost s) 0

/-- The scratch state threaded through the planning pass: the reservation
set and the counters of the two ambient streams. -/
structure PlanCtx where
  reserved : List (Int × Int)
  k : Nat
  j : Nat

/-- An ATTACK intent as pushed by the planner: cost 3, target by id. -/
def attackIntent (uuid : Nat → String) (j : Nat) (enemy target : Unit) : Action :=
  ⟨uuid j, ActionType.ATTACK, enemy.id, none, some target.id, 3, ActionStatus.QUEUED⟩

/-- The MOVE and combo-ATTACK emission at the end of the per-enemy planning
(src/core/ai.ts lines 222-254): a MOVE when at least one step was afforded
and the destination differs from the enemy's cell, plus an ATTACK when the
remaining AP covers the attack cost and the destination is adjacent to the
predicted target position.  The second component advances the uuid-stream
counter. -/
def emitMoves (uuid : Nat → String) (enemy target : Unit) (predicted : Coordinate)
    (currentAp : ℚ) (sim : SimResult) (j : Nat) : List Action × Nat :=
  if 0 < sim.reachIndex ∧
      (sim.actualDest.x ≠ enemy.position.x ∨ sim.actualDest.y ≠ enemy.position.y) then
    if 3 ≤ qsub currentAp sim.costAccumulated ∧ getDist sim.actualDest predicted ≤ 1 then
      ([⟨uuid j, ActionType.MOVE, enemy.id, some sim.actualDest, none,
          sim.costAccumulated, ActionStatus.QUEUED⟩,
        attackIntent uuid (j + 1) enemy target], j + 2)
    else
      ([⟨uuid j, ActionType.MOVE, enemy.id, some sim.actualDest, none,
          sim.costAccumulated, ActionStatus.QUEUED⟩], j + 1)
  else ([], j)

/-- The movement part of the per-enemy planning (src/core/ai.ts lines
124-256): destination choice by machine state, reservation via the spiral,
path query against all unit positions, step budgeting, and emission. -/
def planMove (rnd : Nat → ℚ) (uuid : Nat → String) (cf : Floor) (unitsAll : List Unit)
    (target : Unit) (predicted : Coordinate) (st : PlanCtx) (enemy : Unit)
    (mem1 : AIMemory) : List Action × PlanCtx :=
  let currentAp := enemy.status.ap
  let dk :=
    if mem1.state = AIState.CHASE ∨ mem1.state = AIState.SEARCH then
      (mem1.lastKnownTargetPos, st.k)
    else if mem1.state = AIState.WANDER then tryWander cf enemy.position rnd st.k 3
    else (none, st.k)
  match dk.1 with
  | none => ([], ⟨st.reserved, dk.2, st.j⟩)
  | some dest =>
    match spiralFind cf st.reserved dest with
    | none => ([], ⟨st.reserved, dk.2, st.j⟩)
    | some validDest =>
      let reserved2 := (validDest.x, validDest.y) :: st.reserved
      let allObstacles := unitsAll.map (fun u => u.position)
      let path := findPathObstacles enemy.position validDest [cf] allObstacles
      let sim : SimResult := simulateByPath currentAp target.position enemy.position path
      let em := emitMoves uuid enemy target predicted currentAp sim st.j
      (em.1, ⟨reserved2, dk.2, em.2⟩)

/-- The body of the per-enemy forEach of decideEnemyActions: sensors, state
transition, attack priority, destination choice, reservation, path and
step budgeting, and the emitted intents of this enemy. -/
def planEnemy (rnd : Nat → ℚ) (uuid : Nat → String) (cf : Floor) (unitsAll : List Unit)
    (target : Unit) (predicted : Coordinate) (st : PlanCtx) (enemy : Unit) :
    List Action × PlanCtx :=
  let currentAp := enemy.status.ap
  let mem0 := enemy.memory.getD ⟨AIState.WANDER, none⟩
  let currentDist := getDist enemy.position target.position
  let isVisible := canSee enemy target.position cf
  let playerNoise : ℚ :=
    match target.status.noiseLevel with
    | some nl => if nl = 0 then 3 else nl
    | none => 3
  let isAudible := decide (mkRat currentDist 1 ≤ playerNoise)
  let isDetected := isVisible || isAudible
  let mem1 :=
    if isDetected then (⟨AIState.CHASE, some predicted⟩ : AIMemory)
    else if mem0.state = AIState.CHASE then { mem0 with state := AIState.SEARCH }
    else if mem0.state = AIState.SEARCH then
      match mem0.lastKnownTargetPos with
      | some l =>
        if enemy.position.x = l.x ∧ enemy.position.y = l.y then ⟨AIState.WANDER, none⟩
        else mem0
      | none => mem0
    else mem0
  let distToPredicted := getDist enemy.position predicted
  if currentDist = 1 ∧ 3 ≤ currentAp ∧ distToPredicted ≤ 1 then
    ([attackIntent uuid st.j enemy target], ⟨st.reserved, st.k, st.j + 1⟩)
  else planMove rnd uuid cf unitsAll target predicted st enemy mem1

/-- The enemies.forEach fold collecting every emitted intent in order. -/
def planAll (rnd : Nat → ℚ) (uuid : Nat → String) (cf : Floor) (unitsAll : List Unit)
    (target : Unit) (predicted : Coordinate) : List Unit → PlanCtx → List Action
  | [], _ => []
  | e :: rest, st =>
    let r := planEnemy rnd uuid cf unitsAll target predicted st e
    r.1 ++ planAll rnd uuid cf unitsAll target predicted rest r.2

/-- decideEnemyActions from src/core/ai.ts lines 48-260.  The ambient
Math.random and crypto.randomUUID calls are the streams rnd and uuid,
consumed in call order. -/
def decideEnemyActions (rnd : Nat → ℚ) (uuid : Nat → String) (gs : GameState) : List Action :=
  let units := gs.units
  let enemies := units.filter (fun u => u.faction = UnitKind.ENEMY)
  let players := units.filter (fun u => u.faction = UnitKind.PLAYER)
  match players.head? with
  | none => []
  | some target =>
    match gs.floor.head? with
    | none => []
    | some cf =>
      let playerAction := gs.actionQueue.find? (fun a =>
        decide (a.unitId = target.id) && decide (a.type = ActionType.MOVE))
      let predicted :=
        match playerAction with
        | some pa => pa.target.getD target.position
        | none => target.position
      let reserved0 := players.map (fun p => (p.position.x, p.position.y))
      planAll rnd uuid cf units target predicted enemies ⟨reserved0, 0, 0⟩

/-! ## Specification predicates and claim-side cost functions -/

/-- Whether one path step is a king move: both deltas in -1..1, not both 0. -/
def stepOkB (a b : Coordinate) : Bool :=
  decide ((b.x - a.x = -1 ∨ b.x - a.x = 0 ∨ b.x - a.x = 1) ∧
          (b.y - a.y = -1 ∨ b.y - a.y = 0 ∨ b.y - a.y = 1) ∧
          ¬ (b.x - a.x = 0 ∧ b.y - a.y = 0))

/-- Every consecutive pair of the list is a king move. -/
def pathStepsOk : List Coordinate → Bool
  | a :: b :: rest => stepOkB a b && pathStepsOk (b :: rest)
  | _ => true

/-- Static walkability of a coordinate against the full floor data. -/
def staticWalkable (fd : FloorData) (c : Coordinate) : Bool :=
  match floorGet fd c.floor with
  | some fm => walkableAt fm c.x c.y
  | none => false

/-- The base step cost of the claims: 1.5 diagonal, 1.0 straight. -/
def stepBaseCost (a b : Coordinate) : ℚ :=
  if b.x ≠ a.x ∧ b.y ≠ a.y then mkRat 3 2 else 1

/-- The step cost stated by claim C2, written from the claim text: entering
a tile occupied by a unit other than the mover costs 3.0 instead of the
base 1.0 or 1.5. -/
def claimedStepCost (units : List Unit) (moverId : String) (a b : Coordinate) : ℚ :=
  if units.any (fun u => decide (¬ u.id = moverId) && decide (u.position = b)) then 3
  else stepBaseCost a b

/-- Total claim-side cost of a path, summed over consecutive pairs. -/
def claimedPathCost (units : List Unit) (moverId : String) : List Coordinate → ℚ
  | a :: b :: rest =>
    qadd (claimedStepCost units moverId a b) (claimedPathCost units moverId (b :: rest))
  | _ => 0

/-- The invariant of every node the search manipulates: its parent chain
starts at the start cell with cost 0, and every link is one DIRECTIONS step
into an in-bounds, walkable tile admitted by the dynamic rule, with g
accumulating the admitted step costs. -/
def GoodNode (env : SearchEnv) (sx sy : Int) : PNode → Prop
  | .root x y _ g _ => x = sx ∧ y = sy ∧ g = 0
  | .child x y _ g _ p =>
    GoodNode env sx sy p ∧
    ∃ d ∈ DIRECTIONS, x = PNode.x p + d.dx ∧ y = PNode.y p + d.dy ∧
      inBounds env x y = true ∧ walkableAt env.floorMap x y = true ∧
      ∃ c, env.dyn x y d.cost = some c ∧ g = qadd (PNode.g p) c

/-! ## Concrete fixtures used by witnesses and counterexamples -/

/-- An enemy as spawned by generateMap: apRecovery 4 in its status. -/
def biterC3 : Unit :=
  ⟨"biter-0", UnitKind.ENEMY, UnitKind.ENEMY, "Biter", ⟨0, 0, 0⟩,
   ⟨3, 3, 0, 8, 4, 7, false, none⟩, Facing.DOWN, none⟩

/-- A game state holding only that enemy. -/
def sC3 : GameState := ⟨[], [biterC3], GamePhase.EXECUTION, 0, [], 0⟩

/-- A valid player action fixture for the C4 witness. -/
def playerC4 : Unit :=
  ⟨"player-1", UnitKind.PLAYER, UnitKind.PLAYER, "Survivor", ⟨10, 10, 0⟩,
   ⟨100, 100, 10, 10, 5, 10, false, some 3⟩, Facing.DOWN, none⟩

def sC4 : GameState := ⟨[], [playerC4], GamePhase.DECISION, 5, [], 42⟩

def aC4 : Action :=
  ⟨"a1", ActionType.MOVE, "player-1", some ⟨11, 10, 0⟩, none, mkRat 3 2, ActionStatus.QUEUED⟩

/-- A walkable 2 by 2 single-floor map for the C1 witness. -/
def fdC1 : FloorData :=
  [[[⟨⟨0, 0, 0⟩, TileType.CONCRETE, ⟨1, 1, false, 0, true⟩⟩,
     ⟨⟨0, 1, 0⟩, TileType.CONCRETE, ⟨1, 1, false, 0, true⟩⟩],
    [⟨⟨1, 0, 0⟩, TileType.CONCRETE, ⟨1, 1, false, 0, true⟩⟩,
     ⟨⟨1, 1, 0⟩, TileType.CONCRETE, ⟨1, 1, false, 0, true⟩⟩]]]

/-- A walkable 3 by 1 corridor for the C2 witness. -/
def fdC2 : FloorData :=
  [[[⟨⟨0, 0, 0⟩, TileType.CONCRETE, ⟨1, 1, false, 0, true⟩⟩],
    [⟨⟨1, 0, 0⟩, TileType.CONCRETE, ⟨1, 1, false, 0, true⟩⟩],
    [⟨⟨2, 0, 0⟩, TileType.CONCRETE, ⟨1, 1, false, 0, true⟩⟩]]]

/-- The moving player of the C2 witness. -/
def moverC2 : Unit :=
  ⟨"p", UnitKind.PLAYER, UnitKind.PLAYER, "Survivor", ⟨0, 0, 0⟩,
   ⟨100, 100, 10, 10, 5, 10, false, some 3⟩, Facing.DOWN, none⟩

/-- The enemy standing mid-corridor in the C2 witness. -/
def blockerC2 : Unit :=
  ⟨"e", UnitKind.ENEMY, UnitKind.ENEMY, "Biter", ⟨1, 0, 0⟩,
   ⟨3, 3, 8, 8, 4, 7, false, none⟩, Facing.DOWN, none⟩

/-- A unit co-located with the degenerate start-equals-goal cell of the C2
counterexample; its id differs from the mover id. -/
def occupierC2 : Unit :=
  ⟨"a", UnitKind.ENEMY, UnitKind.ENEMY, "Biter", ⟨0, 0, 0⟩,
   ⟨3, 3, 8, 8, 4, 7, false, none⟩, Facing.DOWN, none⟩

/-! ## Theorems -/

/-- Fixtures for the C6 witness: an attack at Manhattan distance exactly 1
succeeds; one at distance 2 is rejected. -/
def attackerC6 : Unit :=
  ⟨"player-1", UnitKind.PLAYER, UnitKind.PLAYER, "Survivor", ⟨5, 5, 0⟩,
   ⟨100, 100, 7, 10, 5, 10, false, some 3⟩, Facing.DOWN, none⟩

def targetC6 : Unit :=
  ⟨"biter-1", UnitKind.ENEMY, UnitKind.ENEMY, "Biter", ⟨5, 6, 0⟩,
   ⟨3, 3, 8, 8, 4, 7, false, none⟩, Facing.DOWN, none⟩

def targetFarC6 : Unit :=
  ⟨"biter-2", UnitKind.ENEMY, UnitKind.ENEMY, "Biter", ⟨5, 7, 0⟩,
   ⟨3, 3, 8, 8, 4, 7, false, none⟩, Facing.DOWN, none⟩

def sC6 : GameState :=
  ⟨[], [attackerC6, targetC6, targetFarC6], GamePhase.EXECUTION, 0, [], 0⟩

def atkNearC6 : Action :=
  ⟨"a2", ActionType.ATTACK, "player-1", none, some "biter-1", 3, ActionStatus.QUEUED⟩

def atkFarC6 : Action :=
  ⟨"a3", ActionType.ATTACK, "player-1", none, some "biter-2", 3, ActionStatus.QUEUED⟩

def fdC8 : FloorData :=
  [[[⟨⟨0, 0, 0⟩, TileType.CONCRETE, ⟨1, 1, false, 0, true⟩⟩]]]

/-- An enemy fixture for the C7 counterexample. -/
def enemyC7 : Unit :=
  ⟨"biter-7", UnitKind.ENEMY, UnitKind.ENEMY, "Biter", ⟨5, 5, 0⟩,
   ⟨3, 3, 8, 8, 4, 7, false, none⟩, Facing.DOWN, none⟩

/-- Fixtures for the C10 witness: a 3 by 1 corridor, a player at one end and
an enemy two tiles away that hears the player, plans one step and a combo
attack, total cost 4 within its 8 AP. -/
def playerC10 : Unit :=
  ⟨"p1", UnitKind.PLAYER, UnitKind.PLAYER, "Survivor", ⟨0, 0, 0⟩,
   ⟨100, 100, 10, 10, 5, 10, false, some 3⟩, Facing.DOWN, none⟩

def enemyC10 : Unit :=
  ⟨"e1", UnitKind.ENEMY, UnitKind.ENEMY, "Biter", ⟨2, 0, 0⟩,
   ⟨3, 3, 8, 8, 4, 7, false, none⟩, Facing.DOWN, none⟩

def gsC10 : GameState := ⟨fdC2, [playerC10, enemyC10], GamePhase.DECISION, 5, [], 0⟩

def rndC10 : Nat → ℚ := fun _ => 0

def uuidC10 : Nat → String := fun n => "ai-" ++ toString n

theorem qadd_eq (a b : ℚ) : qadd a b = a + b := by
  rw [Rat.add_def, qadd, mkRat, dif_neg (Nat.mul_ne_zero a.den_nz b.den_nz)]

theorem qsub_eq (a b : ℚ) : qsub a b = a - b := by
  rw [Rat.sub_def, qsub, mkRat, dif_neg (Nat.mul_ne_zero a.den_nz b.den_nz)]

theorem qmul_eq (a b : ℚ) : qmul a b = a * b := by
  rw [Rat.mul_def, qmul, mkRat, dif_neg (Nat.mul_ne_zero a.den_nz b.den_nz)]

/-! ## Helper lemmas about the unit-record model -/

theorem find?_map_pred (p : Unit → Bool) (f : Unit → Unit) (hpf : ∀ u, p (f u) = p u)
    (l : List Unit) : (l.map f).find? p = (l.find? p).map f := by
  induction l with
  | nil => rfl
  | cons a t ih =>
    simp only [List.map_cons, List.find?, hpf a]
    cases hpa : p a <;> simp [ih]

theorem findUnit_map (l : List Unit) (f : Unit → Unit) (hf : ∀ u, (f u).id = u.id)
    (uid : String) : findUnit (l.map f) uid = (findUnit l uid).map f := by
  unfold findUnit
  exact find?_map_pred _ f (fun u => by rw [hf u]) l

theorem updateUnits_comp (l : List Unit) (uid : String) (f g : Unit → Unit)
    (hf : ∀ u, (f u).id = u.id) :
    updateUnits (updateUnits l uid f) uid g = updateUnits l uid (fun u => g (f u)) := by
  unfold updateUnits
  rw [List.map_map]
  apply List.map_congr_left
  intro u _
  by_cases h : u.id = uid
  · simp [Function.comp, h, hf u]
  · simp [Function.comp, h]

theorem updateUnits_id (l : List Unit) (uid : String) (f : Unit → Unit)
    (hid : ∀ u, f u = u) : updateUnits l uid f = l := by
  unfold updateUnits
  have : (fun u => if u.id = uid then f u else u) = fun u => u := by
    funext u
    by_cases h : u.id = uid <;> simp [h, hid u]
  rw [this, List.map_id']

/-- C3 counterexample: setPhase to DECISION gives the enemy 5 AP even though
its apRecovery is 4; the claimed value min (maxAp, ap + apRecovery) is 4. -/
theorem setPhase_ignores_apRecovery :
    ((findUnit ((setPhase sC3 GamePhase.DECISION).units) "biter-0").map
        (fun u => u.status.ap)) = some 5
      ∧ min (8 : ℚ) (qadd 0 4) = 4 ∧ (5 : ℚ) ≠ 4 := by
  decide

/-- C3 amended: setPhase to DECISION sets every unit's ap to
min (maxAp, ap + 5) regardless of the apRecovery field. -/
theorem setPhase_decision_recovers_flat_five (s : GameState) (uid : String) (u : Unit)
    (h : findUnit s.units uid = some u) :
    findUnit ((setPhase s GamePhase.DECISION).units) uid =
      some { u with status := { u.status with ap := min u.status.maxAp (u.status.ap + 5) } } := by
  have hf : ∀ v : Unit,
      ({ v with status := { v.status with ap := min v.status.maxAp (qadd v.status.ap 5) } } : Unit).id
        = v.id := fun v => rfl
  unfold setPhase
  rw [if_pos rfl]
  show findUnit (s.units.map _) uid = _
  rw [findUnit_map s.units _ hf uid, h]
  simp [qadd_eq]

theorem setPhase_decision_recovers_flat_five_witness :
    findUnit ((setPhase sC3 GamePhase.DECISION).units) "biter-0" =
      some { biterC3 with status :=
        { biterC3.status with ap := min biterC3.status.maxAp (biterC3.status.ap + 5) } } :=
  setPhase_decision_recovers_flat_five sC3 "biter-0" biterC3 (by decide)

theorem units_debit_refund (l : List Unit) (uid : String) (c : ℚ) :
    updateUnits
      (updateUnits l uid (fun u => { u with status := { u.status with ap := qsub u.status.ap c } }))
      uid (fun u => { u with status := { u.status with ap := qadd u.status.ap c } }) = l := by
  rw [updateUnits_comp l uid
    (fun u => { u with status := { u.status with ap := qsub u.status.ap c } })
    (fun u => { u with status := { u.status with ap := qadd u.status.ap c } })
    (fun v => rfl)]
  apply updateUnits_id
  intro v
  have h : qadd (qsub v.status.ap c) c = v.status.ap := by
    rw [qadd_eq, qsub_eq, sub_add_cancel]
  simp [h]

theorem findUnit_debit (l : List Unit) (uid : String) (c : ℚ) (u : Unit)
    (h : findUnit l uid = some u) :
    findUnit
      (updateUnits l uid (fun u => { u with status := { u.status with ap := qsub u.status.ap c } }))
      uid =
      some (if u.id = uid
            then { u with status := { u.status with ap := qsub u.status.ap c } } else u) := by
  unfold updateUnits
  rw [findUnit_map l _ (fun v => by by_cases hv : v.id = uid <;> simp [hv]) uid, h]
  rfl

/-- C4: enqueueing a valid action (its acting unit exists with enough AP) and
then cancelling restores the exact previous state. -/
theorem queueAction_cancelAction_round_trip (s : GameState) (a : Action) (u : Unit)
    (hu : findUnit s.units a.unitId = some u) (hap : a.cost ≤ u.status.ap) :
    cancelAction (queueAction s a) = s := by
  by_cases hc : 0 < a.cost
  · have hnlt : ¬ (u.status.ap < a.cost) := not_lt.mpr hap
    unfold queueAction
    rw [if_pos hc, hu]
    simp only [if_neg hnlt]
    unfold cancelAction
    simp only [List.getLast?_concat, if_pos hc, List.dropLast_concat,
      findUnit_debit s.units a.unitId a.cost u hu]
    rw [units_debit_refund]
  · unfold queueAction
    rw [if_neg hc]
    unfold cancelAction
    simp [List.getLast?_concat, if_neg hc, List.dropLast_concat]

theorem queueAction_cancelAction_round_trip_witness :
    cancelAction (queueAction sC4 aC4) = sC4 :=
  queueAction_cancelAction_round_trip sC4 aC4 playerC4 (by decide) (by decide)

/-! ## C5: postconditions of executeTurn -/

theorem endExecution_post (s : GameState) :
    (endExecution s).actionQueue = [] ∧ (endExecution s).phase = GamePhase.DECISION ∧
      (endExecution s).timer = 5 := by
  unfold endExecution setPhase clearActionQueue
  simp

/-- C5: whenever executeTurn completes, the action queue is empty, the phase
is DECISION and the timer is 5.0, for any initial queue including the empty
one. -/
theorem executeTurn_post (s s2 : GameState) (h : executeTurn s = some s2) :
    s2.actionQueue = [] ∧ s2.phase = GamePhase.DECISION ∧ s2.timer = 5 := by
  unfold executeTurn at h
  by_cases hq : s.actionQueue = []
  · rw [if_pos hq] at h
    cases h
    exact endExecution_post s
  · rw [if_neg hq] at h
    obtain ⟨s3, _, h2⟩ := Option.map_eq_some'.mp h
    rw [← h2]
    exact endExecution_post _

theorem executeTurn_post_witness :
    (endExecution sC4).actionQueue = [] ∧ (endExecution sC4).phase = GamePhase.DECISION ∧
      (endExecution sC4).timer = 5 :=
  executeTurn_post sC4 (endExecution sC4) (by decide)

/-! ## C6: the ATTACK resolution -/

theorem findUnit_id (l : List Unit) (uid : String) (u : Unit)
    (h : findUnit l uid = some u) : u.id = uid := by
  have := List.find?_some h
  simpa using this

theorem find?_filter_of_imp (p q : Unit → Bool) (l : List Unit)
    (hpq : ∀ u, p u = true → q u = true) : (l.filter q).find? p = l.find? p := by
  induction l with
  | nil => rfl
  | cons a t ih =>
    by_cases hqa : q a = true
    · simp only [List.filter_cons, hqa, if_true, List.find?]
      cases hpa : p a <;> simp [hpa, ih]
    · have hpa : p a = false := by
        cases hpa : p a
        · rfl
        · exact absurd (hpq a hpa) hqa
      simp [List.filter_cons, hqa, List.find?, hpa, ih]

theorem findUnit_updateUnits (l : List Unit) (uid oid : String) (f : Unit → Unit)
    (hf : ∀ u, (f u).id = u.id) :
    findUnit (updateUnits l uid f) oid =
      (findUnit l oid).map (fun u => if u.id = uid then f u else u) := by
  unfold updateUnits findUnit
  apply find?_map_pred
  intro u
  by_cases hu : u.id = uid <;> simp [hu, hf u]

theorem findUnit_updateUnits_other (l : List Unit) (uid oid : String) (f : Unit → Unit)
    (hf : ∀ u, (f u).id = u.id) (hne : oid ≠ uid) :
    findUnit (updateUnits l uid f) oid = findUnit l oid := by
  rw [findUnit_updateUnits l uid oid f hf]
  cases h : findUnit l oid with
  | none => rfl
  | some u =>
    have hid : u.id = oid := findUnit_id l oid u h
    simp [hid, hne]

theorem findUnit_filter_out_self (l : List Unit) (uid : String) :
    findUnit (l.filter (fun v => ¬ v.id = uid)) uid = none := by
  apply List.find?_eq_none.mpr
  intro u hu
  have := (List.mem_filter.mp hu).2
  simp at this
  simp [this]

theorem findUnit_filter_out_other (l : List Unit) (uid oid : String) (hne : oid ≠ uid) :
    findUnit (l.filter (fun v => ¬ v.id = uid)) oid = findUnit l oid := by
  unfold findUnit
  apply find?_filter_of_imp
  intro u hp
  have : u.id = oid := by simpa using hp
  simp [this, hne]

/-- C6: executeAttackAction skips (leaving the whole state unchanged) when
the target id is absent, the attacker or target is missing, the floors
differ, or the Manhattan distance exceeds 1; otherwise exactly one point of
damage is applied to the target (removing it when its hp drops to 0 or
below) and every other unit is untouched. -/
theorem executeAttackAction_spec (s : GameState) (a : Action) :
    (a.targetUnitId = none → executeAttackAction s a = s) ∧
    (∀ tid, a.targetUnitId = some tid →
      ((findUnit s.units a.unitId = none ∨ findUnit s.units tid = none) →
        executeAttackAction s a = s) ∧
      (∀ attacker targetU, findUnit s.units a.unitId = some attacker →
        findUnit s.units tid = some targetU →
        (attacker.position.floor ≠ targetU.position.floor → executeAttackAction s a = s) ∧
        (attacker.position.floor = targetU.position.floor →
          1 < getDist attacker.position targetU.position → executeAttackAction s a = s) ∧
        (attacker.position.floor = targetU.position.floor →
          getDist attacker.position targetU.position ≤ 1 →
          ((1 < targetU.status.hp →
            findUnit (executeAttackAction s a).units tid =
              some { targetU with status :=
                { targetU.status with
                  hp := targetU.status.hp - 1,
                  isInjured := decide (targetU.status.hp - 1 < targetU.status.maxHp / 2) } }) ∧
           (targetU.status.hp ≤ 1 →
            findUnit (executeAttackAction s a).units tid = none) ∧
           (∀ oid, oid ≠ tid →
            findUnit (executeAttackAction s a).units oid = findUnit s.units oid))))) := by
  constructor
  · intro hnone
    unfold executeAttackAction
    rw [hnone]
  · intro tid htid
    constructor
    · intro hmiss
      unfold executeAttackAction
      rw [htid]
      simp only []
      rcases hmiss with hm | hm <;> rw [hm]
      cases findUnit s.units a.unitId <;> rfl
    · intro attacker targetU hA hT
      have hattack : executeAttackAction s a =
          (if attacker.position.floor ≠ targetU.position.floor then s
           else if 1 < getDist attacker.position targetU.position then s
           else applyDamage s tid 1) := by
        unfold executeAttackAction
        rw [htid]
        simp only []
        rw [hA, hT]
      refine ⟨?_, ?_, ?_⟩
      · intro hfl
        rw [hattack, if_pos hfl]
      · intro hfl hdist
        rw [hattack, if_neg (by simp [hfl]), if_pos hdist]
      · intro hfl hdist
        have hr : executeAttackAction s a = applyDamage s tid 1 := by
          rw [hattack, if_neg (by simp [hfl]), if_neg (by simpa using hdist)]
        have hsub : qsub targetU.status.hp 1 = targetU.status.hp - 1 := qsub_eq _ _
        have hhalf : qmul targetU.status.maxHp (mkRat 1 2) = targetU.status.maxHp / 2 := by
          rw [qmul_eq]
          have h2 : (mkRat 1 2 : ℚ) = 2⁻¹ := by norm_num [mkRat]
          rw [h2, div_eq_mul_inv]
        refine ⟨?_, ?_, ?_⟩
        · intro hhp
          rw [hr]
          unfold applyDamage
          rw [hT]
          have hpos : ¬ (qsub targetU.status.hp 1 ≤ 0) := by
            rw [hsub]; linarith
          simp only [if_neg hpos]
          rw [findUnit_updateUnits s.units tid tid
            (fun v => { v with status :=
              { v.status with
                hp := qsub targetU.status.hp 1,
                isInjured := decide (qsub targetU.status.hp 1 < qmul v.status.maxHp (mkRat 1 2)) } })
            (fun u => rfl), hT]
          simp [findUnit_id s.units tid targetU hT, hsub, hhalf]
        · intro hhp
          rw [hr]
          unfold applyDamage
          rw [hT]
          have hng : qsub targetU.status.hp 1 ≤ 0 := by
            rw [hsub]; linarith
          simp only [if_pos hng]
          exact findUnit_filter_out_self s.units tid
        · intro oid hoid
          rw [hr]
          unfold applyDamage
          rw [hT]
          by_cases hng : qsub targetU.status.hp 1 ≤ 0
          · simp only [if_pos hng]
            exact findUnit_filter_out_other s.units tid oid hoid
          · simp only [if_neg hng]
            exact findUnit_updateUnits_other s.units tid oid _ (fun u => rfl) hoid

theorem executeAttackAction_spec_witness :
    (findUnit (executeAttackAction sC6 atkNearC6).units "biter-1" =
      some { targetC6 with status :=
        { targetC6.status with
          hp := targetC6.status.hp - 1,
          isInjured := decide (targetC6.status.hp - 1 < targetC6.status.maxHp / 2) } }) ∧
    executeAttackAction sC6 atkFarC6 = sC6 := by
  constructor
  · exact ((((executeAttackAction_spec sC6 atkNearC6).2 "biter-1" rfl).2 attackerC6 targetC6
      (by decide) (by decide)).2.2 (by decide) (by decide)).1 (by decide)
  · exact (((executeAttackAction_spec sC6 atkFarC6).2 "biter-2" rfl).2 attackerC6 targetFarC6
      (by decide) (by decide)).2.1 (by decide) (by decide)

/-! ## C8: the ray-cast FOV always reveals the origin -/

theorem mem_addKey (a k : Int × Int × Int) (l : List (Int × Int × Int)) (h : a ∈ l) :
    a ∈ addKey k l := by
  unfold addKey
  by_cases hk : k ∈ l <;> simp [hk, h]

theorem mem_rayWalk (fm : Floor) (z : Int) (dx dy : ℚ) (n : Nat) (ox oy : ℚ)
    (vt : List (Int × Int × Int)) (a : Int × Int × Int) (h : a ∈ vt) :
    a ∈ rayWalk fm z dx dy n ox oy vt := by
  induction n generalizing ox oy vt with
  | zero => exact h
  | succ n ih =>
    unfold rayWalk
    dsimp only
    split
    · exact h
    · split
      · exact mem_addKey a _ vt h
      · exact ih _ _ _ (mem_addKey a _ vt h)

/-- C8: whenever calculateSimpleFOV returns a visible set (its floor index
resolves and the grid is nonempty so that the source does not throw), that
set contains the origin key, for every direction table and range. -/
theorem calculateSimpleFOV_contains_origin (dirs : List (ℚ × ℚ)) (origin : Coordinate)
    (range : ℚ) (fd : FloorData) (S : List (Int × Int × Int))
    (hfl : (floorGet fd origin.floor).isSome = true)
    (h : calculateSimpleFOV dirs origin range fd = some S) :
    (origin.x, origin.y, origin.floor) ∈ S := by
  unfold calculateSimpleFOV at h
  cases hg : floorGet fd origin.floor with
  | none => rw [hg] at hfl; simp at hfl
  | some fm =>
    rw [hg] at h
    cases fm with
    | nil => simp at h
    | cons row rest =>
      simp only [Option.some.injEq] at h
      rw [← h]
      have hbase : (origin.x, origin.y, origin.floor) ∈
          addKey (origin.x, origin.y, origin.floor) ([] : List (Int × Int × Int)) := by
        unfold addKey
        simp
      generalize hb : addKey (origin.x, origin.y, origin.floor) ([] : List (Int × Int × Int)) = b
      rw [hb] at hbase
      clear hb h
      induction dirs generalizing b with
      | nil => exact hbase
      | cons d ds ih => exact ih _ (mem_rayWalk _ _ _ _ _ _ _ _ _ hbase)

theorem calculateSimpleFOV_contains_origin_witness :
    ((0 : Int), (0 : Int), (0 : Int)) ∈ [((0 : Int), (0 : Int), (0 : Int))] :=
  calculateSimpleFOV_contains_origin [(1, 0)] ⟨0, 0, 0⟩ 1 fdC8
    [((0 : Int), (0 : Int), (0 : Int))] (by rfl) (by decide)

/-! ## C9: determinism of generateMap -/

/-- C9: two calls of generateMap with equal seeds agree on every tile of
every floor and on every unit lookup.  The embedding is a pure function of
the seed alone: all randomness of the source flows through the seeded PRNG
and no ambient random source occurs in generateMap. -/
theorem generateMap_deterministic (s1 s2 : Nat) (h : s1 = s2) :
    (∀ z x y, (floorGet (generateMap s1).1 z).bind (fun fm => tileAt fm x y) =
              (floorGet (generateMap s2).1 z).bind (fun fm => tileAt fm x y)) ∧
    (∀ uid, findUnit (generateMap s1).2 uid = findUnit (generateMap s2).2 uid) := by
  subst h
  exact ⟨fun _ _ _ => rfl, fun _ => rfl⟩

theorem generateMap_deterministic_witness :
    (∀ z x y, (floorGet (generateMap 42).1 z).bind (fun fm => tileAt fm x y) =
              (floorGet (generateMap 42).1 z).bind (fun fm => tileAt fm x y)) ∧
    (∀ uid, findUnit (generateMap 42).2 uid = findUnit (generateMap 42).2 uid) :=
  generateMap_deterministic 42 42 rfl

/-! ## C7: enemy vision -/

/-- C7 counterexample: a target one tile above an enemy facing DOWN is
within sight range (Manhattan 1 at most 7) yet canSee rejects it, while the
same enemy facing UP sees it: visibility in src/core/ai.ts depends on the
facing cone, not on distance alone. -/
theorem canSee_cone_counterexample :
    canSee enemyC7 ⟨5, 4, 0⟩ [] = false ∧
    getDist enemyC7.position ⟨5, 4, 0⟩ ≤ enemyC7.status.sightRange ∧
    canSee { enemyC7 with facing := Facing.UP } ⟨5, 4, 0⟩ [] = true := by
  decide

/-- C7 amended: canSee holds exactly when the Manhattan distance is within
sightRange and the target lies in the 120-degree facing cone (the dot
product against the facing direction is nonnegative and its square is at
least 9 over 100 of the squared distance), with the observer's own tile
always visible; the floor argument is ignored. -/
theorem canSee_iff (observer : Unit) (target : Coordinate) (fl : Floor) :
    canSee observer target fl = true ↔
      (getDist observer.position target ≤ observer.status.sightRange ∧
        ((target.x - observer.position.x = 0 ∧ target.y - observer.position.y = 0) ∨
         (0 ≤ (target.x - observer.position.x) * (facingDir observer.facing).1 +
              (target.y - observer.position.y) * (facingDir observer.facing).2 ∧
          9 * ((target.x - observer.position.x) * (target.x - observer.position.x) +
               (target.y - observer.position.y) * (target.y - observer.position.y)) ≤
          100 * (((target.x - observer.position.x) * (facingDir observer.facing).1 +
                  (target.y - observer.position.y) * (facingDir observer.facing).2) *
                 ((target.x - observer.position.x) * (facingDir observer.facing).1 +
                  (target.y - observer.position.y) * (facingDir observer.facing).2))))) := by
  unfold canSee
  by_cases h1 : observer.status.sightRange < getDist observer.position target
  · rw [if_pos h1]
    simp [not_le.mpr h1]
  · rw [if_neg h1]
    dsimp only
    by_cases h2 : target.x - observer.position.x = 0 ∧ target.y - observer.position.y = 0
    · simp [h2, not_lt.mp h1]
    · simp [h2, not_lt.mp h1]

/-! ## A* soundness -/

theorem mem_insertByF (a n : PNode) (l : List PNode) (h : a ∈ insertByF n l) :
    a = n ∨ a ∈ l := by
  induction l with
  | nil => simpa [insertByF] using h
  | cons m rest ih =>
    unfold insertByF at h
    split at h
    · rcases List.mem_cons.mp h with h1 | h1
      · exact Or.inr (List.mem_cons.mpr (Or.inl h1))
      · rcases ih h1 with h2 | h2
        · exact Or.inl h2
        · exact Or.inr (List.mem_cons.mpr (Or.inr h2))
    · rcases List.mem_cons.mp h with h1 | h1
      · exact Or.inl h1
      · exact Or.inr h1

theorem mem_sortOpen (a : PNode) (l : List PNode) (h : a ∈ sortOpen l) : a ∈ l := by
  induction l with
  | nil => simpa [sortOpen] using h
  | cons m rest ih =>
    unfold sortOpen at h
    rcases mem_insertByF a m (sortOpen rest) h with h1 | h1
    · exact List.mem_cons.mpr (Or.inl h1)
    · exact List.mem_cons.mpr (Or.inr (ih h1))

theorem mem_updateFirst (a nn : PNode) (nx ny : Int) (l : List PNode)
    (h : a ∈ updateFirst l nx ny nn) : a = nn ∨ a ∈ l := by
  induction l with
  | nil => simpa [updateFirst] using h
  | cons m rest ih =>
    unfold updateFirst at h
    split at h
    · rcases List.mem_cons.mp h with h1 | h1
      · exact Or.inl h1
      · exact Or.inr (List.mem_cons.mpr (Or.inr h1))
    · rcases List.mem_cons.mp h with h1 | h1
      · exact Or.inr (List.mem_cons.mpr (Or.inl h1))
      · rcases ih h1 with h2 | h2
        · exact Or.inl h2
        · exact Or.inr (List.mem_cons.mpr (Or.inr h2))

theorem goodNode_tryDir (env : SearchEnv) (sx sy : Int) (cur : PNode)
    (closed : List (Int × Int)) (openL : List PNode) (d : Dir) (hd : d ∈ DIRECTIONS)
    (hcur : GoodNode env sx sy cur) (hopen : ∀ n ∈ openL, GoodNode env sx sy n) :
    ∀ n ∈ tryDir env cur closed openL d, GoodNode env sx sy n := by
  intro n hn
  unfold tryDir at hn
  dsimp only at hn
  split at hn
  · exact hopen n hn
  next hb =>
  split at hn
  · exact hopen n hn
  next hw =>
  split at hn
  · exact hopen n hn
  next hc =>
  split at hn
  · exact hopen n hn
  next moveCost hdyn =>
  have hbb : inBounds env (cur.x + d.dx) (cur.y + d.dy) = true := by
    by_cases hx : inBounds env (cur.x + d.dx) (cur.y + d.dy) = true
    · exact hx
    · exact absurd (by simpa using hx) hb
  have hww : walkableAt env.floorMap (cur.x + d.dx) (cur.y + d.dy) = true := by
    by_cases hx : walkableAt env.floorMap (cur.x + d.dx) (cur.y + d.dy) = true
    · exact hx
    · exact absurd (by simpa using hx) hw
  have hgood : GoodNode env sx sy
      (PNode.child (cur.x + d.dx) (cur.y + d.dy)
        (qadd (qadd cur.g moveCost)
          (getHeuristic ⟨cur.x + d.dx, cur.y + d.dy, env.z⟩ ⟨env.ex, env.ey, env.z⟩))
        (qadd cur.g moveCost)
        (getHeuristic ⟨cur.x + d.dx, cur.y + d.dy, env.z⟩ ⟨env.ex, env.ey, env.z⟩) cur) :=
    ⟨hcur, d, hd, rfl, rfl, hbb, hww, moveCost, hdyn, rfl⟩
  split at hn
  next existing hfind =>
    split at hn
    · rcases mem_updateFirst n _ _ _ openL hn with h1 | h1
      · subst h1
        exact ⟨hcur, d, hd, rfl, rfl, hbb, hww, moveCost, hdyn, rfl⟩
      · exact hopen n h1
    · exact hopen n hn
  next hfind =>
    rcases List.mem_append.mp hn with h1 | h1
    · exact hopen n h1
    · have : n = PNode.child (cur.x + d.dx) (cur.y + d.dy)
          (qadd (qadd cur.g moveCost)
            (getHeuristic ⟨cur.x + d.dx, cur.y + d.dy, env.z⟩ ⟨env.ex, env.ey, env.z⟩))
          (qadd cur.g moveCost)
          (getHeuristic ⟨cur.x + d.dx, cur.y + d.dy, env.z⟩ ⟨env.ex, env.ey, env.z⟩) cur := by
        simpa using h1
      rw [this]
      exact hgood

theorem goodNode_expand (env : SearchEnv) (sx sy : Int) (cur : PNode)
    (closed : List (Int × Int)) (hcur : GoodNode env sx sy cur) :
    ∀ ds : List Dir, (∀ d ∈ ds, d ∈ DIRECTIONS) →
    ∀ openL : List PNode, (∀ n ∈ openL, GoodNode env sx sy n) →
    ∀ n ∈ List.foldl (tryDir env cur closed) openL ds, GoodNode env sx sy n := by
  intro ds
  induction ds with
  | nil => intro _ openL hopen n hn; exact hopen n hn
  | cons d rest ih =>
    intro hds openL hopen n hn
    exact ih (fun x hx => hds x (List.mem_cons.mpr (Or.inr hx)))
      (tryDir env cur closed openL d)
      (goodNode_tryDir env sx sy cur closed openL d (hds d (List.mem_cons.mpr (Or.inl rfl)))
        hcur hopen) n hn

theorem aStarLoop_sound (env : SearchEnv) (sx sy : Int) :
    ∀ (fuel : Nat) (openL : List PNode) (closed : List (Int × Int)),
    (∀ n ∈ openL, GoodNode env sx sy n) →
    ∀ res, aStarLoop env fuel openL closed = some res →
    GoodNode env sx sy res ∧ res.x = env.ex ∧ res.y = env.ey := by
  intro fuel
  induction fuel with
  | zero => intro openL closed _ res hres; simp [aStarLoop] at hres
  | succ fuel ih =>
    intro openL closed hopen res hres
    unfold aStarLoop at hres
    cases hs : sortOpen openL with
    | nil =>
      rw [hs] at hres
      simp only [] at hres
      cases hres
    | cons cur rest =>
      rw [hs] at hres
      simp only [] at hres
      have hall : ∀ n ∈ cur :: rest, GoodNode env sx sy n := by
        intro n hn
        exact hopen n (mem_sortOpen n openL (hs ▸ hn))
      split at hres
      next hgoal =>
        cases hres
        exact ⟨hall _ (List.mem_cons.mpr (Or.inl rfl)), hgoal.1, hgoal.2⟩
      next =>
        split at hres
        · exact ih rest closed (fun n hn => hall n (List.mem_cons.mpr (Or.inr hn))) res hres
        · exact ih _ _
            (goodNode_expand env sx sy cur ((cur.x, cur.y) :: closed)
              (hall cur (List.mem_cons.mpr (Or.inl rfl))) DIRECTIONS (fun d hd => hd) rest
              (fun n hn => hall n (List.mem_cons.mpr (Or.inr hn)))) res hres

theorem runSearch_sound (start goal : Coordinate) (fd : FloorData)
    (mkDyn : Floor → Int → Int → ℚ → Option ℚ) (res : PNode)
    (h : runSearch start goal fd mkDyn = some res) :
    ∃ fm, floorGet fd start.floor = some fm ∧
      GoodNode ⟨fm, start.floor, goal.x, goal.y, mkDyn fm⟩ start.x start.y res ∧
      res.x = goal.x ∧ res.y = goal.y := by
  unfold runSearch at h
  cases hg : floorGet fd start.floor with
  | none => rw [hg] at h; cases h
  | some fm =>
    rw [hg] at h
    simp only [] at h
    split at h
    · cases h
    · split at h
      · cases h
      · refine ⟨fm, rfl, ?_⟩
        have := aStarLoop_sound ⟨fm, start.floor, goal.x, goal.y, mkDyn fm⟩ start.x start.y
          (searchFuel fm) [.root start.x start.y 0 0 0] []
          (by
            intro n hn
            have hn2 : n = PNode.root start.x start.y 0 0 0 := by simpa using hn
            rw [hn2]
            exact ⟨rfl, rfl, rfl⟩) res h
        exact this

/-! ## Properties of the reconstructed path -/

theorem buildPath_append (z : Int) (n : PNode) (acc : List Coordinate) :
    buildPath z n acc = buildPath z n [] ++ acc := by
  induction n generalizing acc with
  | root x y f g hc => simp [buildPath]
  | child x y f g hc p ih =>
    show buildPath z p (⟨x, y, z⟩ :: acc) = buildPath z p (⟨x, y, z⟩ :: []) ++ acc
    rw [ih (⟨x, y, z⟩ :: acc), ih (⟨x, y, z⟩ :: [])]
    simp

theorem buildPath_ne_nil (z : Int) (n : PNode) : buildPath z n [] ≠ [] := by
  cases n with
  | root x y f g hc => simp [buildPath]
  | child x y f g hc p =>
    show buildPath z p (⟨x, y, z⟩ :: []) ≠ []
    rw [buildPath_append]
    simp

theorem tail_append_singleton {α : Type} (l : List α) (c : α) (h : l ≠ []) :
    (l ++ [c]).tail = l.tail ++ [c] := by
  cases l with
  | nil => exact absurd rfl h
  | cons a t => rfl

theorem buildPath_last (z : Int) (n : PNode) :
    (buildPath z n []).getLast? = some ⟨n.x, n.y, z⟩ := by
  cases n with
  | root x y f g hc => rfl
  | child x y f g hc p =>
    show (buildPath z p (⟨x, y, z⟩ :: [])).getLast? = _
    rw [buildPath_append]
    simp [PNode.x, PNode.y, List.getLast?_concat]

theorem buildPath_head (env : SearchEnv) (sx sy z : Int) (n : PNode)
    (hn : GoodNode env sx sy n) : (buildPath z n []).head? = some ⟨sx, sy, z⟩ := by
  induction n with
  | root x y f g hc =>
    obtain ⟨hx, hy, _⟩ := hn
    subst hx; subst hy
    rfl
  | child x y f g hc p ih =>
    obtain ⟨hp, _⟩ := hn
    show (buildPath z p (⟨x, y, z⟩ :: [])).head? = _
    rw [buildPath_append]
    have hh := ih hp
    cases hl : buildPath z p [] with
    | nil => exact absurd hl (buildPath_ne_nil z p)
    | cons a t =>
      rw [hl] at hh
      simp at hh
      simp [hh]

theorem buildPath_floor (z : Int) (n : PNode) :
    ∀ c ∈ buildPath z n [], c.floor = z := by
  induction n with
  | root x y f g hc =>
    intro c hc2
    simp [buildPath] at hc2
    rw [hc2]
  | child x y f g hc p ih =>
    intro c hc2
    have : c ∈ buildPath z p [] ++ [⟨x, y, z⟩] := by
      rw [← buildPath_append]
      exact hc2
    rcases List.mem_append.mp this with h1 | h1
    · exact ih c h1
    · simp at h1
      rw [h1]

/-- Every DIRECTIONS entry is a king move with the matching cost. -/
theorem dirs_fact : ∀ d ∈ DIRECTIONS,
    ((d.dx = -1 ∨ d.dx = 0 ∨ d.dx = 1) ∧ (d.dy = -1 ∨ d.dy = 0 ∨ d.dy = 1) ∧
     ¬ (d.dx = 0 ∧ d.dy = 0)) ∧
    d.cost = (if d.dx ≠ 0 ∧ d.dy ≠ 0 then mkRat 3 2 else 1) := by
  decide

theorem pathStepsOk_concat (l : List Coordinate) (b : Coordinate)
    (hl : pathStepsOk l = true)
    (hlast : ∀ a, l.getLast? = some a → stepOkB a b = true) :
    pathStepsOk (l ++ [b]) = true := by
  induction l with
  | nil => rfl
  | cons a t ih =>
    cases t with
    | nil =>
      have := hlast a rfl
      simp [pathStepsOk, this]
    | cons c t2 =>
      have h1 : stepOkB a c = true ∧ pathStepsOk (c :: t2) = true := by
        simpa [pathStepsOk, Bool.and_eq_true] using hl
      have h2 : pathStepsOk ((c :: t2) ++ [b]) = true :=
        ih h1.2 (fun x hx => hlast x (by simpa [List.getLast?_cons_cons] using hx))
      simpa [pathStepsOk, Bool.and_eq_true, h1.1] using h2

theorem buildPath_steps (env : SearchEnv) (sx sy z : Int) (n : PNode)
    (hn : GoodNode env sx sy n) : pathStepsOk (buildPath z n []) = true := by
  induction n with
  | root x y f g hc => rfl
  | child x y f g hc p ih =>
    obtain ⟨hp, d, hd, hx, hy, hb, hw, c, hdyn, hg⟩ := hn
    show pathStepsOk (buildPath z p (⟨x, y, z⟩ :: [])) = true
    rw [buildPath_append]
    apply pathStepsOk_concat _ _ (ih hp)
    intro a hlast
    rw [buildPath_last] at hlast
    have ha : a = ⟨PNode.x p, PNode.y p, z⟩ := by
      exact (Option.some.injEq _ _).mp hlast.symm
    subst ha
    have hdd := (dirs_fact d hd).1
    apply decide_eq_true
    refine ⟨?_, ?_, ?_⟩
    · simpa [hx] using hdd.1
    · simpa [hy] using hdd.2.1
    · simpa [hx, hy] using hdd.2.2

theorem buildPath_tail_prop (env : SearchEnv) (sx sy z : Int)
    (P : Coordinate → Prop)
    (hstep : ∀ (q : PNode) (x y : Int),
      GoodNode env sx sy q →
      (∃ d ∈ DIRECTIONS, x = PNode.x q + d.dx ∧ y = PNode.y q + d.dy ∧
        inBounds env x y = true ∧ walkableAt env.floorMap x y = true ∧
        ∃ c, env.dyn x y d.cost = some c) → P ⟨x, y, z⟩) :
    ∀ n : PNode, GoodNode env sx sy n → ∀ c ∈ (buildPath z n []).tail, P c := by
  intro n
  induction n with
  | root x y f g hc => intro _ c hc2; simp [buildPath] at hc2
  | child x y f g hc p ih =>
    intro hn c hc2
    obtain ⟨hp, d, hd, hx, hy, hb, hw, cc, hdyn, hg⟩ := hn
    have hshape : (buildPath z (PNode.child x y f g hc p) []).tail =
        (buildPath z p []).tail ++ [⟨x, y, z⟩] := by
      show (buildPath z p (⟨x, y, z⟩ :: [])).tail = _
      rw [buildPath_append]
      exact tail_append_singleton _ _ (buildPath_ne_nil z p)
    rw [hshape] at hc2
    rcases List.mem_append.mp hc2 with h1 | h1
    · exact ih hp c h1
    · simp at h1
      rw [h1]
      exact hstep p x y hp ⟨d, hd, hx, hy, hb, hw, cc, hdyn⟩

/-! ## C1: structure of every path returned by findPath -/

/-- C1 counterexample: findPath ignores the floor component of the goal, so
with goal floor 1 and start floor 0 the returned single-cell path does not
end at the goal coordinate as the claim states. -/
theorem findPath_crossfloor_counterexample :
    findPath ⟨0, 0, 0⟩ ⟨0, 0, 1⟩ fdC8 = some [⟨0, 0, 0⟩] ∧
    ¬ ([(⟨0, 0, 0⟩ : Coordinate)].getLast? = some (⟨0, 0, 1⟩ : Coordinate)) := by
  decide

/-- C1 amended: every path findPath returns starts at the start coordinate,
ends at (goal.x, goal.y, start.floor) — hence at the goal exactly when the
goal's floor equals the start's floor — stays on start.floor throughout,
advances by king moves, and every cell after the first is statically
walkable. -/
theorem findPath_spec (start goal : Coordinate) (fd : FloorData) (p : List Coordinate)
    (h : findPath start goal fd = some p) :
    p.head? = some start ∧
    p.getLast? = some ⟨goal.x, goal.y, start.floor⟩ ∧
    (∀ c ∈ p, c.floor = start.floor) ∧
    pathStepsOk p = true ∧
    (∀ c ∈ p.tail, staticWalkable fd c = true) := by
  unfold findPath at h
  obtain ⟨n, hrun, hbuild⟩ := Option.map_eq_some'.mp h
  obtain ⟨fm, hfm, hgood, hx, hy⟩ := runSearch_sound start goal fd _ n hrun
  subst hbuild
  refine ⟨?_, ?_, ?_, ?_, ?_⟩
  · exact buildPath_head _ start.x start.y start.floor n hgood
  · rw [buildPath_last, hx, hy]
  · exact buildPath_floor _ n
  · exact buildPath_steps _ start.x start.y start.floor n hgood
  · apply buildPath_tail_prop _ start.x start.y start.floor
      (fun c => staticWalkable fd c = true) ?_ n hgood
    intro q x y hq hex
    obtain ⟨d, hd, hx2, hy2, hb, hw, c2, hdyn⟩ := hex
    unfold staticWalkable
    dsimp only
    rw [hfm]
    exact hw

theorem findPath_spec_witness :
    ([(⟨0, 0, 0⟩ : Coordinate), ⟨1, 1, 0⟩].head? = some (⟨0, 0, 0⟩ : Coordinate)) ∧
    ([(⟨0, 0, 0⟩ : Coordinate), ⟨1, 1, 0⟩].getLast? = some (⟨1, 1, 0⟩ : Coordinate)) ∧
    (∀ c ∈ [(⟨0, 0, 0⟩ : Coordinate), ⟨1, 1, 0⟩], c.floor = 0) ∧
    pathStepsOk [(⟨0, 0, 0⟩ : Coordinate), ⟨1, 1, 0⟩] = true ∧
    (∀ c ∈ [(⟨0, 0, 0⟩ : Coordinate), ⟨1, 1, 0⟩].tail, staticWalkable fdC1 c = true) :=
  findPath_spec ⟨0, 0, 0⟩ ⟨1, 1, 0⟩ fdC1 [⟨0, 0, 0⟩, ⟨1, 1, 0⟩] (by decide)

/-! ## C2: occupancy discipline of the spec-modelled units-aware search -/

theorem occupierAt_none_iff (units : List Unit) (moverId : String) (z x y : Int) :
    occupierAt units moverId z x y = none ↔
      ∀ u ∈ units, ¬ u.id = moverId → u.position ≠ (⟨x, y, z⟩ : Coordinate) := by
  unfold occupierAt
  rw [List.find?_eq_none]
  constructor
  · intro h u hu hid hpos
    apply h u hu
    simp [hid, hpos]
  · intro h u hu hpred
    simp only [Bool.and_eq_true, decide_eq_true_eq] at hpred
    obtain ⟨⟨⟨hid, hxx⟩, hyy⟩, hff⟩ := hpred
    apply h u hu hid
    have hup : u.position = ⟨u.position.x, u.position.y, u.position.floor⟩ := rfl
    rw [hup, hxx, hyy, hff]

theorem occupierAt_isSome_any (units : List Unit) (moverId : String) (z x y : Int) :
    (occupierAt units moverId z x y).isSome =
      units.any (fun u =>
        decide (¬ u.id = moverId) && decide (u.position = (⟨x, y, z⟩ : Coordinate))) := by
  unfold occupierAt
  induction units with
  | nil => rfl
  | cons a t ih =>
    have hpred : (decide (¬ a.id = moverId) && decide (a.position.x = x) &&
        decide (a.position.y = y) && decide (a.position.floor = z)) =
        (decide (¬ a.id = moverId) && decide (a.position = (⟨x, y, z⟩ : Coordinate))) := by
      have hup : a.position = ⟨a.position.x, a.position.y, a.position.floor⟩ := rfl
      by_cases h1 : a.id = moverId
      · simp [h1]
      · by_cases h2 : a.position = (⟨x, y, z⟩ : Coordinate)
        · rw [h2]
          simp [h1]
        · have : ¬ (a.position.x = x ∧ a.position.y = y ∧ a.position.floor = z) := by
            intro hcomp
            apply h2
            rw [hup, hcomp.1, hcomp.2.1, hcomp.2.2]
          simp only [h1, h2, decide_eq_true_eq, not_false_eq_true, decide_eq_false,
            Bool.and_false, decide_True, Bool.true_and]
          rcases Decidable.not_and_iff_or_not.mp this with hh | hh
          · simp [hh]
          · rcases Decidable.not_and_iff_or_not.mp hh with hh2 | hh2 <;> simp [hh2]
    rw [List.find?_cons, List.any_cons, ← hpred]
    cases hcase : (decide (¬ a.id = moverId) && decide (a.position.x = x) &&
        decide (a.position.y = y) && decide (a.position.floor = z)) with
    | true => simp
    | false => simpa using ih

theorem unitsDyn_some_occ (units : List Unit) (moverId : String) (z gx gy x y : Int)
    (base c : ℚ) (h : unitsDyn units moverId z gx gy x y base = some c) (occ : Unit)
    (hocc : occupierAt units moverId z x y = some occ) :
    ¬ (x = gx ∧ y = gy) ∧ moverIsPlayer units moverId = true ∧
      occ.type = UnitKind.ENEMY ∧ c = 3 := by
  unfold unitsDyn at h
  rw [hocc] at h
  simp only [] at h
  split at h
  · cases h
  next hgoal =>
    split at h
    next hcond =>
      refine ⟨hgoal, ?_, hcond.2, ((Option.some.injEq _ _).mp h).symm⟩
      simpa using hcond.1
    next => cases h

theorem unitsDyn_none_occ (units : List Unit) (moverId : String) (z gx gy x y : Int)
    (base c : ℚ) (h : unitsDyn units moverId z gx gy x y base = some c)
    (hocc : occupierAt units moverId z x y = none) : c = base := by
  unfold unitsDyn at h
  rw [hocc] at h
  simp only [Option.some.injEq] at h
  exact h.symm

theorem claimedPathCost_concat (units : List Unit) (moverId : String)
    (l : List Coordinate) (a b : Coordinate) (hlast : l.getLast? = some a) :
    claimedPathCost units moverId (l ++ [b]) =
      qadd (claimedPathCost units moverId l) (claimedStepCost units moverId a b) := by
  induction l generalizing a with
  | nil => cases hlast
  | cons x t ih =>
    cases t with
    | nil =>
      have hax : a = x := by
        have : x = a := by simpa using hlast
        exact this.symm
      subst hax
      show qadd (claimedStepCost units moverId a b) (claimedPathCost units moverId [b]) = _
      show qadd (claimedStepCost units moverId a b) 0 = _
      rw [qadd_eq, qadd_eq]
      show claimedStepCost units moverId a b + 0 =
        (0 : ℚ) + claimedStepCost units moverId a b
      ring
    | cons y t2 =>
      have hlast2 : (y :: t2).getLast? = some a := by
        simpa [List.getLast?_cons_cons] using hlast
      show qadd (claimedStepCost units moverId x y)
          (claimedPathCost units moverId ((y :: t2) ++ [b])) = _
      rw [ih a hlast2]
      show _ = qadd (qadd (claimedStepCost units moverId x y)
          (claimedPathCost units moverId (y :: t2))) (claimedStepCost units moverId a b)
      simp only [qadd_eq]
      ring

theorem stepBase_eq_dirCost (d : Dir) (hd : d ∈ DIRECTIONS) (px py z : Int) :
    stepBaseCost ⟨px, py, z⟩ ⟨px + d.dx, py + d.dy, z⟩ = d.cost := by
  have hc := (dirs_fact d hd).2
  unfold stepBaseCost
  dsimp only
  rw [hc]
  by_cases hx : d.dx = 0 <;> by_cases hy : d.dy = 0 <;> simp [hx, hy]

theorem buildPath_g (units : List Unit) (moverId : String) (fm : Floor)
    (z gx gy sx sy : Int) (n : PNode)
    (hn : GoodNode ⟨fm, z, gx, gy, unitsDyn units moverId z gx gy⟩ sx sy n) :
    n.g = claimedPathCost units moverId (buildPath z n []) := by
  induction n with
  | root x y f g hc =>
    obtain ⟨_, _, hg⟩ := hn
    exact hg
  | child x y f g hc p ih =>
    obtain ⟨hp, d, hd, hx, hy, hb, hw, c, hdyn, hg⟩ := hn
    have hshape : buildPath z (PNode.child x y f g hc p) [] =
        buildPath z p [] ++ [⟨x, y, z⟩] := by
      show buildPath z p (⟨x, y, z⟩ :: []) = _
      rw [buildPath_append]
    rw [hshape,
      claimedPathCost_concat units moverId _ ⟨PNode.x p, PNode.y p, z⟩ _ (buildPath_last z p)]
    have hstep : claimedStepCost units moverId ⟨PNode.x p, PNode.y p, z⟩ ⟨x, y, z⟩ = c := by
      unfold claimedStepCost
      cases hocc : occupierAt units moverId z x y with
      | none =>
        have hany : units.any (fun u =>
            decide (¬ u.id = moverId) && decide (u.position = (⟨x, y, z⟩ : Coordinate)))
              = false := by
          rw [← occupierAt_isSome_any, hocc]
          rfl
        rw [hany]
        simp only [Bool.false_eq_true, if_false]
        rw [unitsDyn_none_occ units moverId z gx gy x y d.cost c hdyn hocc]
        rw [hx, hy]
        exact stepBase_eq_dirCost d hd (PNode.x p) (PNode.y p) z
      | some occ =>
        have hany : units.any (fun u =>
            decide (¬ u.id = moverId) && decide (u.position = (⟨x, y, z⟩ : Coordinate)))
              = true := by
          rw [← occupierAt_isSome_any, hocc]
          rfl
        rw [hany]
        simp only [if_true]
        exact (unitsDyn_some_occ units moverId z gx gy x y d.cost c hdyn occ hocc).2.2.2.symm
    rw [hstep, hg, ih hp]
    show qadd (claimedPathCost units moverId (buildPath z p [])) c = _
    rfl

theorem last_mem_tail (z : Int) (n : PNode) (h2 : 2 ≤ (buildPath z n []).length) :
    (⟨n.x, n.y, z⟩ : Coordinate) ∈ (buildPath z n []).tail := by
  cases n with
  | root x y f g hc => simp [buildPath] at h2
  | child x y f g hc p =>
    have hshape : (buildPath z (PNode.child x y f g hc p) []).tail =
        (buildPath z p []).tail ++ [⟨x, y, z⟩] := by
      show (buildPath z p (⟨x, y, z⟩ :: [])).tail = _
      rw [buildPath_append]
      exact tail_append_singleton _ _ (buildPath_ne_nil z p)
    rw [hshape]
    simp [PNode.x, PNode.y]

/-- C2 counterexample: the degenerate call with start = end returns the
single-cell path with no occupancy check, ending on a tile occupied by a
unit other than the mover, so the claim's first conjunct fails as stated. -/
theorem findPathUnits_start_goal_counterexample :
    findPathUnits ⟨0, 0, 0⟩ ⟨0, 0, 0⟩ fdC8 [occupierC2] "m" = some [⟨0, 0, 0⟩] ∧
    occupierC2.position = (⟨0, 0, 0⟩ : Coordinate) ∧ ¬ occupierC2.id = "m" := by
  decide

/-- C2 amended (spec-modelled search): every returned path of two or more
waypoints ends on a tile free of units other than the mover (the trivial
single-cell path when start = end is returned without occupancy checks);
every later waypoint that carries an occupier is a non-goal cell crossed by
a PLAYER mover over an ENEMY occupier; and the accumulated search cost of
the returned path charges 3.0 for each occupied step instead of the base
1.0 or 1.5. -/
theorem findPathUnits_spec (start goal : Coordinate) (fd : FloorData) (units : List Unit)
    (moverId : String) (p : List Coordinate)
    (h : findPathUnits start goal fd units moverId = some p) :
    (∀ c ∈ p.tail, ∀ occ, occupierAt units moverId start.floor c.x c.y = some occ →
      ¬ (c.x = goal.x ∧ c.y = goal.y) ∧ moverIsPlayer units moverId = true ∧
        occ.type = UnitKind.ENEMY) ∧
    (2 ≤ p.length → ∀ u ∈ units, ¬ u.id = moverId →
      u.position ≠ (⟨goal.x, goal.y, start.floor⟩ : Coordinate)) ∧
    (∃ n, findPathUnitsSearch start goal fd units moverId = some n ∧
      p = buildPath start.floor n [] ∧
      n.g = claimedPathCost units moverId p) := by
  unfold findPathUnits at h
  obtain ⟨n, hrun, hbuild⟩ := Option.map_eq_some'.mp h
  obtain ⟨fm, hfm, hgood, hx, hy⟩ :=
    runSearch_sound start goal fd
      (fun _ => unitsDyn units moverId start.floor goal.x goal.y) n hrun
  subst hbuild
  have htail : ∀ c ∈ (buildPath start.floor n []).tail,
      ∀ occ, occupierAt units moverId start.floor c.x c.y = some occ →
      ¬ (c.x = goal.x ∧ c.y = goal.y) ∧ moverIsPlayer units moverId = true ∧
        occ.type = UnitKind.ENEMY := by
    apply buildPath_tail_prop _ start.x start.y start.floor
      (fun c => ∀ occ, occupierAt units moverId start.floor c.x c.y = some occ →
        ¬ (c.x = goal.x ∧ c.y = goal.y) ∧ moverIsPlayer units moverId = true ∧
          occ.type = UnitKind.ENEMY) ?_ n hgood
    intro q x y hq hex occ hocc
    obtain ⟨d, hd, hx2, hy2, hb, hw, c2, hdyn⟩ := hex
    obtain ⟨h1, h2, h3, _⟩ :=
      unitsDyn_some_occ units moverId start.floor goal.x goal.y x y d.cost c2 hdyn occ hocc
    exact ⟨h1, h2, h3⟩
  refine ⟨htail, ?_, n, hrun, rfl, ?_⟩
  · intro hlen
    have hmem := last_mem_tail start.floor n hlen
    rw [hx, hy] at hmem
    cases hocc : occupierAt units moverId start.floor goal.x goal.y with
    | none => exact (occupierAt_none_iff units moverId start.floor goal.x goal.y).mp hocc
    | some occ =>
      have := htail ⟨goal.x, goal.y, start.floor⟩ hmem occ hocc
      exact absurd ⟨rfl, rfl⟩ this.1
  · exact buildPath_g units moverId fm start.floor goal.x goal.y start.x start.y n hgood

theorem findPathUnits_spec_witness :
    (∀ c ∈ [(⟨0, 0, 0⟩ : Coordinate), ⟨1, 0, 0⟩, ⟨2, 0, 0⟩].tail,
      ∀ occ, occupierAt [moverC2, blockerC2] "p" 0 c.x c.y = some occ →
      ¬ (c.x = 2 ∧ c.y = 0) ∧ moverIsPlayer [moverC2, blockerC2] "p" = true ∧
        occ.type = UnitKind.ENEMY) ∧
    (2 ≤ [(⟨0, 0, 0⟩ : Coordinate), ⟨1, 0, 0⟩, ⟨2, 0, 0⟩].length →
      ∀ u ∈ [moverC2, blockerC2], ¬ u.id = "p" →
      u.position ≠ (⟨2, 0, 0⟩ : Coordinate)) ∧
    (∃ n, findPathUnitsSearch ⟨0, 0, 0⟩ ⟨2, 0, 0⟩ fdC2 [moverC2, blockerC2] "p" = some n ∧
      [(⟨0, 0, 0⟩ : Coordinate), ⟨1, 0, 0⟩, ⟨2, 0, 0⟩] = buildPath 0 n [] ∧
      n.g = claimedPathCost [moverC2, blockerC2] "p"
        [(⟨0, 0, 0⟩ : Coordinate), ⟨1, 0, 0⟩, ⟨2, 0, 0⟩]) :=
  findPathUnits_spec ⟨0, 0, 0⟩ ⟨2, 0, 0⟩ fdC2 [moverC2, blockerC2] "p"
    [⟨0, 0, 0⟩, ⟨1, 0, 0⟩, ⟨2, 0, 0⟩] (by decide)

/-! ## C10: the planner never budgets beyond an enemy's current AP -/

theorem simSteps_bounds (ap : ℚ) (tpos : Coordinate) (prev : Coordinate)
    (rest : List Coordinate) (i : Nat) (acc : ℚ) (dest : Coordinate) (idx : Nat) :
    ((simSteps ap tpos prev rest i acc dest idx).costAccumulated = acc ∧
     (simSteps ap tpos prev rest i acc dest idx).reachIndex = idx) ∨
    (simSteps ap tpos prev rest i acc dest idx).costAccumulated ≤ ap := by
  induction rest generalizing prev i acc dest idx with
  | nil => exact Or.inl ⟨rfl, rfl⟩
  | cons curr rest2 ih =>
    unfold simSteps
    dsimp only
    split
    · exact Or.inl ⟨rfl, rfl⟩
    · have key : ∀ sc : ℚ,
          (((if qadd acc sc ≤ ap then simSteps ap tpos curr rest2 (i + 1) (qadd acc sc) curr i
             else ⟨acc, dest, idx⟩) : SimResult).costAccumulated = acc ∧
           ((if qadd acc sc ≤ ap then simSteps ap tpos curr rest2 (i + 1) (qadd acc sc) curr i
             else ⟨acc, dest, idx⟩) : SimResult).reachIndex = idx) ∨
          ((if qadd acc sc ≤ ap then simSteps ap tpos curr rest2 (i + 1) (qadd acc sc) curr i
             else ⟨acc, dest, idx⟩) : SimResult).costAccumulated ≤ ap := by
        intro sc
        split
        next hstep =>
          rcases ih curr (i + 1) (qadd acc sc) curr i with ⟨hc, _⟩ | hle
          · exact Or.inr (by rw [hc]; exact hstep)
          · exact Or.inr hle
        next => exact Or.inl ⟨rfl, rfl⟩
      exact key _

theorem simulateByPath_bounds (ap : ℚ) (tpos dflt : Coordinate)
    (path : Option (List Coordinate)) :
    ((simulateByPath ap tpos dflt path).costAccumulated = 0 ∧
     (simulateByPath ap tpos dflt path).reachIndex = 0) ∨
    (simulateByPath ap tpos dflt path).costAccumulated ≤ ap := by
  cases path with
  | none => exact Or.inl ⟨rfl, rfl⟩
  | some l =>
    cases l with
    | nil => exact Or.inl ⟨rfl, rfl⟩
    | cons p0 rest => exact simSteps_bounds ap tpos p0 rest 1 0 dflt 0

theorem emitMoves_bounds (uuid : Nat → String) (enemy target : Unit)
    (predicted : Coordinate) (ap : ℚ) (sim : SimResult) (j : Nat)
    (hsim : (sim.costAccumulated = 0 ∧ sim.reachIndex = 0) ∨ sim.costAccumulated ≤ ap) :
    (∀ a ∈ (emitMoves uuid enemy target predicted ap sim j).1, a.unitId = enemy.id) ∧
    (∀ a ∈ (emitMoves uuid enemy target predicted ap sim j).1,
      a.type = ActionType.MOVE → a.cost ≤ ap) ∧
    ((emitMoves uuid enemy target predicted ap sim j).1 ≠ [] →
      costSum (emitMoves uuid enemy target predicted ap sim j).1 ≤ ap) := by
  unfold emitMoves
  split
  next hemit =>
    have hcost : sim.costAccumulated ≤ ap := by
      rcases hsim with ⟨hc0, hidx⟩ | hle
      · rw [hidx] at hemit
        exact absurd hemit.1 (lt_irrefl 0)
      · exact hle
    split
    next hcombo =>
      refine ⟨?_, ?_, ?_⟩
      · intro a ha
        rcases List.mem_cons.mp ha with h1 | h1
        · rw [h1]
        · have h2 : a = attackIntent uuid (j + 1) enemy target := by simpa using h1
          rw [h2]
          rfl
      · intro a ha hmv
        rcases List.mem_cons.mp ha with h1 | h1
        · rw [h1]
          exact hcost
        · have h2 : a = attackIntent uuid (j + 1) enemy target := by simpa using h1
          rw [h2] at hmv
          simp [attackIntent] at hmv
      · intro _
        show costSum [_, _] ≤ ap
        unfold costSum
        simp only [List.foldr]
        rw [qadd_eq, qadd_eq]
        have hc := hcombo.1
        rw [qsub_eq] at hc
        show sim.costAccumulated + ((attackIntent uuid (j + 1) enemy target).cost + 0) ≤ ap
        have hac : (attackIntent uuid (j + 1) enemy target).cost = 3 := rfl
        rw [hac]
        linarith
    next =>
      refine ⟨?_, ?_, ?_⟩
      · intro a ha
        have h1 : a = ⟨uuid j, ActionType.MOVE, enemy.id, some sim.actualDest, none,
            sim.costAccumulated, ActionStatus.QUEUED⟩ := by simpa using ha
        rw [h1]
      · intro a ha hmv
        have h1 : a = ⟨uuid j, ActionType.MOVE, enemy.id, some sim.actualDest, none,
            sim.costAccumulated, ActionStatus.QUEUED⟩ := by simpa using ha
        rw [h1]
        exact hcost
      · intro _
        show costSum [_] ≤ ap
        unfold costSum
        simp only [List.foldr]
        rw [qadd_eq]
        show sim.costAccumulated + 0 ≤ ap
        linarith
  next => exact ⟨by simp, by simp, by intro hne; simp at hne⟩

theorem planMove_bounds (rnd : Nat → ℚ) (uuid : Nat → String) (cf : Floor)
    (unitsAll : List Unit) (target : Unit) (predicted : Coordinate) (st : PlanCtx)
    (enemy : Unit) (mem1 : AIMemory) :
    (∀ a ∈ (planMove rnd uuid cf unitsAll target predicted st enemy mem1).1,
      a.unitId = enemy.id) ∧
    (∀ a ∈ (planMove rnd uuid cf unitsAll target predicted st enemy mem1).1,
      a.type = ActionType.MOVE → a.cost ≤ enemy.status.ap) ∧
    ((planMove rnd uuid cf unitsAll target predicted st enemy mem1).1 ≠ [] →
      costSum (planMove rnd uuid cf unitsAll target predicted st enemy mem1).1 ≤
        enemy.status.ap) := by
  unfold planMove
  dsimp only
  split
  · exact ⟨by simp, by simp, by intro hne; simp at hne⟩
  next dest hdest =>
    split
    · exact ⟨by simp, by simp, by intro hne; simp at hne⟩
    next validDest hvd =>
      exact emitMoves_bounds uuid enemy target predicted enemy.status.ap
        (simulateByPath enemy.status.ap target.position enemy.position
          (findPathObstacles enemy.position validDest [cf]
            (unitsAll.map (fun u => u.position)))) st.j
        (simulateByPath_bounds enemy.status.ap target.position enemy.position
          (findPathObstacles enemy.position validDest [cf]
            (unitsAll.map (fun u => u.position))))

set_option maxHeartbeats 1000000 in
theorem planEnemy_bounds (rnd : Nat → ℚ) (uuid : Nat → String) (cf : Floor)
    (unitsAll : List Unit) (target : Unit) (predicted : Coordinate) (st : PlanCtx)
    (enemy : Unit) :
    (∀ a ∈ (planEnemy rnd uuid cf unitsAll target predicted st enemy).1,
      a.unitId = enemy.id) ∧
    (∀ a ∈ (planEnemy rnd uuid cf unitsAll target predicted st enemy).1,
      a.type = ActionType.MOVE → a.cost ≤ enemy.status.ap) ∧
    ((planEnemy rnd uuid cf unitsAll target predicted st enemy).1 ≠ [] →
      costSum (planEnemy rnd uuid cf unitsAll target predicted st enemy).1 ≤
        enemy.status.ap) := by
  unfold planEnemy
  dsimp only
  split
  next hatk =>
    refine ⟨?_, ?_, ?_⟩
    · intro a ha
      have ha2 : a = attackIntent uuid st.j enemy target := by simpa using ha
      rw [ha2]
      rfl
    · intro a ha hmv
      have ha2 : a = attackIntent uuid st.j enemy target := by simpa using ha
      rw [ha2] at hmv
      simp [attackIntent] at hmv
    · intro _
      show costSum [_] ≤ enemy.status.ap
      unfold costSum
      simp only [List.foldr]
      rw [qadd_eq]
      show (attackIntent uuid st.j enemy target).cost + 0 ≤ enemy.status.ap
      have hac : (attackIntent uuid st.j enemy target).cost = 3 := rfl
      rw [hac]
      have h3 := hatk.2.1
      linarith
  next =>
    apply planMove_bounds

theorem planAll_unitIds (rnd : Nat → ℚ) (uuid : Nat → String) (cf : Floor)
    (unitsAll : List Unit) (target : Unit) (predicted : Coordinate) :
    ∀ (es : List Unit) (st : PlanCtx) (a : Action),
      a ∈ planAll rnd uuid cf unitsAll target predicted es st →
      ∃ u ∈ es, a.unitId = u.id := by
  intro es
  induction es with
  | nil => intro st a ha; simp [planAll] at ha
  | cons x rest ih =>
    intro st a ha
    unfold planAll at ha
    dsimp only at ha
    rcases List.mem_append.mp ha with h1 | h1
    · exact ⟨x, by simp, (planEnemy_bounds rnd uuid cf unitsAll target predicted st x).1 a h1⟩
    · obtain ⟨u, hu, hid⟩ := ih _ a h1
      exact ⟨u, by simp [hu], hid⟩

theorem planAll_filter (rnd : Nat → ℚ) (uuid : Nat → String) (cf : Floor)
    (unitsAll : List Unit) (target : Unit) (predicted : Coordinate) (e : Unit) :
    ∀ (es : List Unit) (st : PlanCtx), e ∈ es → (es.map (fun u => u.id)).Nodup →
    ∃ st2, (planAll rnd uuid cf unitsAll target predicted es st).filter
        (fun a => a.unitId = e.id) =
      (planEnemy rnd uuid cf unitsAll target predicted st2 e).1 := by
  intro es
  induction es with
  | nil => intro st he; cases he
  | cons x rest ih =>
    intro st he hnodup
    have hx : (planAll rnd uuid cf unitsAll target predicted (x :: rest) st) =
        (planEnemy rnd uuid cf unitsAll target predicted st x).1 ++
          planAll rnd uuid cf unitsAll target predicted rest
            (planEnemy rnd uuid cf unitsAll target predicted st x).2 := rfl
    rw [hx, List.filter_append]
    rcases List.mem_cons.mp he with he1 | he1
    · subst he1
      have hearly : ((planEnemy rnd uuid cf unitsAll target predicted st e).1).filter
          (fun a => a.unitId = e.id) =
          (planEnemy rnd uuid cf unitsAll target predicted st e).1 := by
        apply List.filter_eq_self.mpr
        intro a ha
        simp [(planEnemy_bounds rnd uuid cf unitsAll target predicted st e).1 a ha]
      have hrest : (planAll rnd uuid cf unitsAll target predicted rest
            (planEnemy rnd uuid cf unitsAll target predicted st e).2).filter
          (fun a => a.unitId = e.id) = [] := by
        apply List.filter_eq_nil_iff.mpr
        intro a ha
        obtain ⟨u, hu, hid⟩ := planAll_unitIds rnd uuid cf unitsAll target predicted rest _ a ha
        have hne : u.id ≠ e.id := by
          intro heq
          have : e.id ∈ rest.map (fun u => u.id) := by
            rw [← heq]
            exact List.mem_map.mpr ⟨u, hu, rfl⟩
          exact (List.nodup_cons.mp hnodup).1 this
        simp [hid, hne]
      rw [hearly, hrest, List.append_nil]
      exact ⟨st, rfl⟩
    · have hxe : x.id ≠ e.id := by
        intro heq
        have : e.id ∈ rest.map (fun u => u.id) := List.mem_map.mpr ⟨e, he1, rfl⟩
        rw [← heq] at this
        exact (List.nodup_cons.mp hnodup).1 this
      have hfirst : ((planEnemy rnd uuid cf unitsAll target predicted st x).1).filter
          (fun a => a.unitId = e.id) = [] := by
        apply List.filter_eq_nil_iff.mpr
        intro a ha
        have hid := (planEnemy_bounds rnd uuid cf unitsAll target predicted st x).1 a ha
        simp [hid, hxe]
      rw [hfirst, List.nil_append]
      exact ih _ he1 (List.nodup_cons.mp hnodup).2

/-- C10: for every game state whose enemies carry distinct ids, and for any
ambient random and uuid streams, the intents decideEnemyActions emits for
one enemy never budget beyond that enemy's current AP: each MOVE costs at
most ap, and whenever any intent is emitted for the enemy, the total cost
of its intents (a lone ATTACK of 3, a MOVE, or a MOVE plus ATTACK combo) is
at most ap. -/
theorem decideEnemyActions_budget (rnd : Nat → ℚ) (uuid : Nat → String) (gs : GameState)
    (hnodup : ((gs.units.filter (fun u => u.faction = UnitKind.ENEMY)).map
      (fun u => u.id)).Nodup) :
    ∀ e ∈ gs.units.filter (fun u => u.faction = UnitKind.ENEMY),
      (∀ a ∈ (decideEnemyActions rnd uuid gs).filter (fun a => a.unitId = e.id),
        a.type = ActionType.MOVE → a.cost ≤ e.status.ap) ∧
      ((decideEnemyActions rnd uuid gs).filter (fun a => a.unitId = e.id) ≠ [] →
        costSum ((decideEnemyActions rnd uuid gs).filter (fun a => a.unitId = e.id)) ≤
          e.status.ap) := by
  intro e he
  unfold decideEnemyActions
  dsimp only
  cases hp : (gs.units.filter (fun u => u.faction = UnitKind.PLAYER)).head? with
  | none =>
    exact ⟨by simp, by intro hne; simp at hne⟩
  | some target =>
    cases hf : gs.floor.head? with
    | none =>
      exact ⟨by simp, by intro hne; simp at hne⟩
    | some cf =>
      simp only []
      obtain ⟨st2, heq⟩ := planAll_filter rnd uuid cf gs.units target
        (match gs.actionQueue.find? (fun a =>
            decide (a.unitId = target.id) && decide (a.type = ActionType.MOVE)) with
          | some pa => pa.target.getD target.position
          | none => target.position) e
        (gs.units.filter (fun u => u.faction = UnitKind.ENEMY))
        ⟨(gs.units.filter (fun u => u.faction = UnitKind.PLAYER)).map
          (fun p => (p.position.x, p.position.y)), 0, 0⟩ he hnodup
      rw [heq]
      exact ⟨(planEnemy_bounds rnd uuid cf gs.units target _ st2 e).2.1,
             (planEnemy_bounds rnd uuid cf gs.units target _ st2 e).2.2⟩

theorem decideEnemyActions_budget_witness :
    (∀ a ∈ (decideEnemyActions rndC10 uuidC10 gsC10).filter
        (fun a => a.unitId = enemyC10.id),
      a.type = ActionType.MOVE → a.cost ≤ enemyC10.status.ap) ∧
    ((decideEnemyActions rndC10 uuidC10 gsC10).filter
        (fun a => a.unitId = enemyC10.id) ≠ [] →
      costSum ((decideEnemyActions rndC10 uuidC10 gsC10).filter
        (fun a => a.unitId = enemyC10.id)) ≤ enemyC10.status.ap) :=
  decideEnemyActions_budget rndC10 uuidC10 gsC10 (by decide) enemyC10 (by decide)

end Fallen
